import Mathlib

/-!
# System-call layer of the user-program kernel (`src/userprog/syscall.c`)

A shallow embedding of the system-call dispatcher, its pointer validation,
the per-process open-file table and the child-process registry, followed by
theorems about them.

Conventions of the embedding.

* User virtual addresses and other `unsigned`/`uint32_t` values are natural
  numbers below `2 ^ 32`; address arithmetic is reduced modulo `2 ^ 32`
  (`wrap32`).  The null pointer is `0`.
* Values of type `int` are integers kept in the 32-bit two's-complement range
  by `toI32`, which is what the i386 target does on `fd++`.
* Kernel state touched by the file is threaded explicitly (`State`).  Calls
  into code outside the file (file system, console, process creation, the
  lock, `printf`, memory loads from user addresses) append an `Event` to
  `State.trace`; the values such calls return come from `Env`.
* `malloc` is taken to succeed; list elements are values.
-/

namespace Syscall

/-! ## Machine words -/

/-- Reduction of an address or unsigned value to 32 bits. -/
def wrap32 (n : Nat) : Nat := n % 4294967296

/-- Conversion of an integer to `int` (32-bit two's complement). -/
def toI32 (z : Int) : Int := (z + 2147483648) % 4294967296 - 2147483648

/-- Conversion of an integer to `uint32_t`/`unsigned`. -/
def toU32 (z : Int) : Nat := (z % 4294967296).toNat

/-! ## Constants and macros declared outside `syscall.c` -/

/-- The constants and the address-space macro that `syscall.c` takes from
headers that are not part of it (`userprog/syscall.h`, `userprog/process.h`,
`syscall-nr.h`, `stdio.h`, `threads/vaddr.h`).  They are parameters of the
embedding. -/
structure Config where
  ERROR : Int
  CLOSE_ALL : Int
  NOT_LOADED : Int
  LOAD_FAIL : Int
  STDIN_FILENO : Int
  STDOUT_FILENO : Int
  SYS_HALT : Int
  SYS_EXIT : Int
  SYS_EXEC : Int
  SYS_WAIT : Int
  SYS_CREATE : Int
  SYS_REMOVE : Int
  SYS_OPEN : Int
  SYS_FILESIZE : Int
  SYS_READ : Int
  SYS_WRITE : Int
  SYS_SEEK : Int
  SYS_TELL : Int
  SYS_CLOSE : Int
  is_user_vaddr : Nat → Bool

/-! ## Data model -/

/-- The `struct process_file` of the source: an open file handle (a kernel
pointer, `0` for `NULL`) and its descriptor. -/
structure process_file where
  file : Nat
  fd : Int
deriving DecidableEq, Repr

/-- The `struct child_process` of `userprog/process.h` as used here.  The
field `status` is `none` until it is first written (`malloc` leaves it
indeterminate). -/
structure child_process where
  pid : Int
  load : Int
  wait : Bool
  exit : Bool
  status : Option Int
deriving DecidableEq, Repr

/-- The part of `struct intr_frame` the handler uses. -/
structure intr_frame where
  esp : Nat
  eax : Nat
deriving DecidableEq, Repr

/-- Calls that leave `syscall.c`, in the order they happen. -/
inductive Event where
  | load32 (addr : Nat)
  | store8 (addr : Nat) (byte : Nat)
  | printf_exit (name : String) (status : Int)
  | shutdown_power_off
  | lock_acquire
  | lock_release
  | filesys_create (file : Nat) (initial_size : Nat)
  | filesys_remove (file : Nat)
  | filesys_open (file : Nat)
  | file_length (f : Nat)
  | file_read (f : Nat) (buffer : Nat) (size : Nat)
  | file_write (f : Nat) (buffer : Nat) (size : Nat)
  | file_seek (f : Nat) (position : Nat)
  | file_tell (f : Nat)
  | file_close (f : Nat)
  | input_getc
  | putbuf (buffer : Nat) (size : Nat)
  | process_execute (cmd_line : Nat)
  | process_wait (pid : Int)
  | free_process_file (pf : process_file)
  | free_child_process (cp : child_process)
deriving DecidableEq, Repr

/-- The kernel state the file reads and writes: the fields of
`thread_current ()` it uses (`fd` is the descriptor counter, an `int` like
the `fd` of `struct process_file` that receives it; `parent_alive` is
`thread_alive (cur->parent)`; `cp` is the record `cur->cp` points to), the
user memory seen through the current page directory (`pagedir a` is
`pagedir_get_page (cur->pagedir, a)`, `0` when `a` is not mapped), the trap
frame, the file-system lock and the trace. -/
structure State where
  name : String
  pagedir : Nat → Nat
  mem : Nat → Nat
  fd : Int
  file_list : List process_file
  child_list : List child_process
  parent_alive : Bool
  cp : child_process
  frame : intr_frame
  lock_held : Bool
  trace : List Event

/-- Results of the calls that leave `syscall.c`.  Each may depend on
everything that happened before (the trace).  `process_execute` and
`process_wait` live in `userprog/process.c` and also rewrite the caller's
child list; `child_load pid k` is the value of the `load` field of the
record of `pid` at the `k`-th time `exec` reads it (the child writes it from
its own context). -/
structure Env where
  filesys_create : List Event → Nat → Nat → Bool
  filesys_remove : List Event → Nat → Bool
  filesys_open : List Event → Nat → Nat
  file_length : List Event → Nat → Int
  file_read : List Event → Nat → Nat → Nat → Int
  file_write : List Event → Nat → Nat → Nat → Int
  file_tell : List Event → Nat → Int
  input_getc : List Event → Nat
  process_execute : List Event → List child_process → Nat → Int × List child_process
  process_wait : List Event → List child_process → Int → Int × List child_process
  child_load : Int → Nat → Int
  spin_fuel : Nat

/-- How a call ends. -/
inductive Outcome (α : Type) where
  /-- The function returned `a`. -/
  | ret (a : α) (s : State)
  /-- The process was terminated: `thread_exit ()` was reached through
  `exit (status)`. -/
  | exited (status : Int) (s : State)
  /-- The machine was powered off by `shutdown_power_off ()`. -/
  | halted (s : State)
  /-- The kernel dereferenced `addr`, which the page directory does not map. -/
  | page_fault (addr : Nat) (s : State)
  /-- The `ASSERT (cp)` of `exec` failed. -/
  | assert_failed (s : State)
  /-- The busy wait of `exec` was still spinning when the fuel ran out. -/
  | spinning (s : State)

/-- Kernel computations: state in, outcome out. -/
def K (α : Type) : Type := State → Outcome α

/-- Sequencing: only a normal return continues. -/
def K.bind {α β : Type} (m : K α) (k : α → K β) : K β := fun s =>
  match m s with
  | Outcome.ret a s1 => k a s1
  | Outcome.exited st s1 => Outcome.exited st s1
  | Outcome.halted s1 => Outcome.halted s1
  | Outcome.page_fault a s1 => Outcome.page_fault a s1
  | Outcome.assert_failed s1 => Outcome.assert_failed s1
  | Outcome.spinning s1 => Outcome.spinning s1

/-- Normal return of a value. -/
def K.pure {α : Type} (a : α) : K α := fun s => Outcome.ret a s

instance : Monad K where
  pure := K.pure
  bind := K.bind

/-- Append an event to the trace. -/
def emit (e : Event) : K Unit := fun s =>
  Outcome.ret () { s with trace := s.trace ++ [e] }

/-- Read the state. -/
def getState : K State := fun s => Outcome.ret s s

/-! ## `exit`, `halt` -/

/-- The state in which `exit (status)` calls `thread_exit ()`: the status is
stored in the caller's child record when the parent is alive, and the
termination message has been printed. -/
def exit_state (status : Int) (s : State) : State :=
  let s1 : State :=
    if s.parent_alive then { s with cp := { s.cp with status := some status } } else s
  { s1 with trace := s1.trace ++ [Event.printf_exit s1.name status] }

/-- `void exit (int status)`. -/
def exit {α : Type} (status : Int) : K α := fun s =>
  Outcome.exited status (exit_state status s)

/-- `void halt (void)`. -/
def halt {α : Type} : K α := fun s =>
  Outcome.halted { s with trace := s.trace ++ [Event.shutdown_power_off] }

/-! ## Pointer validation -/

/-- `void check_ptr (const void *ptr)`. -/
def check_ptr (cfg : Config) (ptr : Nat) : K Unit := fun s =>
  if ptr = 0 ∨ cfg.is_user_vaddr ptr = false then
    exit cfg.ERROR s
  else if s.pagedir ptr = 0 then
    exit cfg.ERROR s
  else
    Outcome.ret () s

/-- The loop of `check_buffer`: `n` iterations are left and `local_buffer`
is the address to check next. -/
def check_buffer_loop (cfg : Config) : Nat → Nat → K Unit
  | 0, _ => K.pure ()
  | n + 1, local_buffer =>
    K.bind (check_ptr cfg local_buffer) fun _ =>
      check_buffer_loop cfg n (wrap32 (local_buffer + 1))

/-- `void check_buffer (void *buffer, unsigned size)`. -/
def check_buffer (cfg : Config) (buffer : Nat) (size : Nat) : K Unit :=
  check_buffer_loop cfg size buffer

/-- An address passes `check_ptr`: it is not null, it is a user virtual
address and the page directory of the process maps it. -/
def valid_ptr (cfg : Config) (s : State) (ptr : Nat) : Prop :=
  ptr ≠ 0 ∧ cfg.is_user_vaddr ptr = true ∧ s.pagedir ptr ≠ 0

instance (cfg : Config) (s : State) (ptr : Nat) : Decidable (valid_ptr cfg s ptr) := by
  unfold valid_ptr; infer_instance

/-! ## Memory access and small state updates -/

/-- A load of the 4-byte little-endian word at user address `a`, as in
`*esp`.  The access faults at the first of its four bytes that the page
directory does not map. -/
def load32 (a : Nat) : K Nat := fun s =>
  let s1 : State := { s with trace := s.trace ++ [Event.load32 a] }
  if s.pagedir a = 0 then Outcome.page_fault a s1
  else if s.pagedir (wrap32 (a + 1)) = 0 then Outcome.page_fault (wrap32 (a + 1)) s1
  else if s.pagedir (wrap32 (a + 2)) = 0 then Outcome.page_fault (wrap32 (a + 2)) s1
  else if s.pagedir (wrap32 (a + 3)) = 0 then Outcome.page_fault (wrap32 (a + 3)) s1
  else
    Outcome.ret
      (s.mem a % 256 + 256 * (s.mem (wrap32 (a + 1)) % 256)
        + 65536 * (s.mem (wrap32 (a + 2)) % 256)
        + 16777216 * (s.mem (wrap32 (a + 3)) % 256)) s1

/-- A store of one byte at user address `a`, as in `local_buffer[i] = c`. -/
def store8 (a : Nat) (c : Nat) : K Unit := fun s =>
  let s1 : State := { s with trace := s.trace ++ [Event.store8 a (c % 256)] }
  if s.pagedir a = 0 then Outcome.page_fault a s1
  else Outcome.ret () { s1 with mem := fun x => if x = a then c % 256 else s.mem x }

/-- `lock_acquire (&filesys_lock)`. -/
def lock_acquire : K Unit := fun s =>
  Outcome.ret () { s with lock_held := true, trace := s.trace ++ [Event.lock_acquire] }

/-- `lock_release (&filesys_lock)`. -/
def lock_release : K Unit := fun s =>
  Outcome.ret () { s with lock_held := false, trace := s.trace ++ [Event.lock_release] }

/-- The assignment `f->eax = v`. -/
def set_eax (v : Nat) : K Unit := fun s =>
  Outcome.ret () { s with frame := { s.frame with eax := v } }

/-! ## The open-file table -/

/-- `int process_add_file (struct file *f)`.  The descriptor of the new
entry is the counter of the thread, which is then incremented. -/
def process_add_file (f : Nat) : K Int := fun s =>
  let pf : process_file := { file := f, fd := s.fd }
  Outcome.ret pf.fd
    { s with fd := toI32 (s.fd + 1), file_list := s.file_list ++ [pf] }

/-- The loop of `process_get_file` over the file list. -/
def process_get_file_loop (fd : Int) : List process_file → Nat
  | [] => 0
  | pf :: rest => if fd = pf.fd then pf.file else process_get_file_loop fd rest

/-- `struct file *process_get_file (int fd)`; `0` is `NULL`. -/
def process_get_file (fd : Int) (s : State) : Nat :=
  process_get_file_loop fd s.file_list

/-- The loop of `process_close_file`: the list that remains and the calls
made (`file_close`, then `free`, for each entry removed). -/
def process_close_file_loop (cfg : Config) (fd : Int) :
    List process_file → List process_file × List Event
  | [] => ([], [])
  | pf :: rest =>
    if fd = pf.fd ∨ fd = cfg.CLOSE_ALL then
      if fd ≠ cfg.CLOSE_ALL then
        (rest, [Event.file_close pf.file, Event.free_process_file pf])
      else
        ((process_close_file_loop cfg fd rest).1,
          Event.file_close pf.file :: Event.free_process_file pf ::
            (process_close_file_loop cfg fd rest).2)
    else
      (pf :: (process_close_file_loop cfg fd rest).1,
        (process_close_file_loop cfg fd rest).2)

/-- `void process_close_file (int fd)`. -/
def process_close_file (cfg : Config) (fd : Int) : K Unit := fun s =>
  Outcome.ret ()
    { s with file_list := (process_close_file_loop cfg fd s.file_list).1,
             trace := s.trace ++ (process_close_file_loop cfg fd s.file_list).2 }

/-! ## The child-process registry

A pointer to a record of the child list is its position in the list. -/

/-- `struct child_process *add_child_process (int pid)`: the position of the
new record, which is the last one. -/
def add_child_process (cfg : Config) (pid : Int) : K Nat := fun s =>
  let cp : child_process :=
    { pid := pid, load := cfg.NOT_LOADED, wait := false, exit := false, status := none }
  Outcome.ret s.child_list.length { s with child_list := s.child_list ++ [cp] }

/-- The loop of `get_child_process`; `i` is the position of the head. -/
def get_child_process_loop (pid : Int) : List child_process → Nat → Option Nat
  | [], _ => none
  | cp :: rest, i => if pid = cp.pid then some i else get_child_process_loop pid rest (i + 1)

/-- `struct child_process *get_child_process (int pid)`; `none` is `NULL`. -/
def get_child_process (pid : Int) (s : State) : Option Nat :=
  get_child_process_loop pid s.child_list 0

/-- `void remove_child_process (struct child_process *cp)`. -/
def remove_child_process (cp : Nat) : K Unit := fun s =>
  match s.child_list.get? cp with
  | none => Outcome.page_fault cp s
  | some r =>
    Outcome.ret ()
      { s with child_list := s.child_list.eraseIdx cp,
               trace := s.trace ++ [Event.free_child_process r] }

/-- The loop of `remove_child_processes`: every record is unlinked and
freed, front to back; the list that remains and the calls made. -/
def remove_child_processes_loop : List child_process → List child_process × List Event
  | [] => ([], [])
  | cp :: rest =>
    ((remove_child_processes_loop rest).1,
      Event.free_child_process cp :: (remove_child_processes_loop rest).2)

/-- `void remove_child_processes (void)`. -/
def remove_child_processes : K Unit := fun s =>
  Outcome.ret ()
    { s with child_list := (remove_child_processes_loop s.child_list).1,
             trace := s.trace ++ (remove_child_processes_loop s.child_list).2 }

/-! ## The handlers -/

/-- The environment writes the `load` field of the record at position `cp`
(the child does so from its own context) before `exec` reads it for the
`k`-th time. -/
def observe_load (env : Env) (pid : Int) (cp : Nat) (k : Nat) (s : State) : State :=
  { s with child_list :=
      s.child_list.modify (fun r => { r with load := env.child_load pid k }) cp }

/-- The `load` field of the record at position `cp`. -/
def load_of (cp : Nat) (s : State) : Option Int :=
  (s.child_list.get? cp).map fun r => r.load

/-- The busy wait `while (cp->load == NOT_LOADED) barrier ();` of `exec`.
It returns the number of reads of `cp->load` made so far. -/
def exec_spin (cfg : Config) (env : Env) (pid : Int) (cp : Nat) : Nat → Nat → K Nat
  | 0, _ => fun s => Outcome.spinning s
  | fuel + 1, k => fun s =>
    let s1 := observe_load env pid cp k s
    if load_of cp s1 = some cfg.NOT_LOADED then
      exec_spin cfg env pid cp fuel (k + 1) s1
    else
      Outcome.ret (k + 1) s1

/-- `pid_t exec (const char *cmd_line)`. -/
def exec (cfg : Config) (env : Env) (cmd_line : Nat) : K Int := do
  check_ptr cfg cmd_line
  let s ← getState
  let kaddr := s.pagedir cmd_line
  if kaddr = 0 then
    exit cfg.ERROR
  else
    let r := env.process_execute s.trace s.child_list kaddr
    let pid := r.1
    (fun s1 : State => Outcome.ret ()
      { s1 with child_list := r.2,
                trace := s1.trace ++ [Event.process_execute kaddr] })
    let s2 ← getState
    match get_child_process pid s2 with
    | none => fun s3 => Outcome.assert_failed s3
    | some cp =>
      let k ← exec_spin cfg env pid cp env.spin_fuel 0
      (fun s3 : State => Outcome.ret () (observe_load env pid cp k s3))
      let s4 ← getState
      if load_of cp s4 = some cfg.LOAD_FAIL then
        return cfg.ERROR
      else
        return pid

/-- `int wait (pid_t pid)`. -/
def wait (env : Env) (pid : Int) : K Int := do
  let s ← getState
  let r := env.process_wait s.trace s.child_list pid
  (fun s1 : State => Outcome.ret ()
    { s1 with child_list := r.2, trace := s1.trace ++ [Event.process_wait pid] })
  return toI32 r.1

/-- `bool create (const char *file, unsigned initial_size)`. -/
def create (cfg : Config) (env : Env) (file : Nat) (initial_size : Nat) : K Bool := do
  check_ptr cfg file
  lock_acquire
  let s ← getState
  let success := env.filesys_create s.trace file initial_size
  emit (Event.filesys_create file initial_size)
  lock_release
  return success

/-- `bool remove (const char *file)`. -/
def remove (cfg : Config) (env : Env) (file : Nat) : K Bool := do
  check_ptr cfg file
  lock_acquire
  let s ← getState
  let success := env.filesys_remove s.trace file
  emit (Event.filesys_remove file)
  lock_release
  return success

/-- `int open (const char *file)` (`open` is a keyword of Lean). -/
def sys_open (cfg : Config) (env : Env) (file : Nat) : K Int := do
  check_ptr cfg file
  lock_acquire
  let s ← getState
  let f := env.filesys_open s.trace file
  emit (Event.filesys_open file)
  if f = 0 then
    lock_release
    return cfg.ERROR
  else
    let fd ← process_add_file f
    lock_release
    return fd

/-- `int filesize (int fd)`. -/
def filesize (cfg : Config) (env : Env) (fd : Int) : K Int := do
  lock_acquire
  let s ← getState
  let f := process_get_file fd s
  if f = 0 then
    lock_release
    return cfg.ERROR
  else
    let size := toI32 (env.file_length s.trace f)
    emit (Event.file_length f)
    lock_release
    return size

/-- The console loop of `read`: `n` bytes are left and `p` is the address of
`local_buffer[i]`. -/
def read_stdin_loop (env : Env) : Nat → Nat → K Unit
  | 0, _ => K.pure ()
  | n + 1, p => do
    let s ← getState
    let c := env.input_getc s.trace
    emit Event.input_getc
    store8 p c
    read_stdin_loop env n (wrap32 (p + 1))

/-- `int read (int fd, void *buffer, unsigned size)`. -/
def read (cfg : Config) (env : Env) (fd : Int) (buffer : Nat) (size : Nat) : K Int := do
  check_buffer cfg buffer size
  if fd = cfg.STDIN_FILENO then
    read_stdin_loop env size buffer
    return toI32 size
  else
    lock_acquire
    let s ← getState
    let f := process_get_file fd s
    if f = 0 then
      lock_release
      return cfg.ERROR
    else
      let bytes := toI32 (env.file_read s.trace f buffer size)
      emit (Event.file_read f buffer size)
      lock_release
      return bytes

/-- `int write (int fd, const void *buffer, unsigned size)`. -/
def write (cfg : Config) (env : Env) (fd : Int) (buffer : Nat) (size : Nat) : K Int := do
  check_buffer cfg buffer size
  if fd = cfg.STDOUT_FILENO then
    emit (Event.putbuf buffer size)
    return toI32 size
  else
    lock_acquire
    let s ← getState
    let f := process_get_file fd s
    if f = 0 then
      lock_release
      return cfg.ERROR
    else
      let bytes := toI32 (env.file_write s.trace f buffer size)
      emit (Event.file_write f buffer size)
      lock_release
      return bytes

/-- `void seek (int fd, unsigned position)`. -/
def seek (fd : Int) (position : Nat) : K Unit := do
  lock_acquire
  let s ← getState
  let f := process_get_file fd s
  if f = 0 then
    lock_release
  else
    emit (Event.file_seek f position)
    lock_release

/-- `unsigned tell (int fd)`. -/
def tell (cfg : Config) (env : Env) (fd : Int) : K Nat := do
  lock_acquire
  let s ← getState
  let f := process_get_file fd s
  if f = 0 then
    lock_release
    return toU32 cfg.ERROR
  else
    let offset := toI32 (env.file_tell s.trace f)
    emit (Event.file_tell f)
    lock_release
    return toU32 offset

/-- `void close (int fd)`. -/
def close (cfg : Config) (fd : Int) : K Unit := do
  lock_acquire
  process_close_file cfg fd
  lock_release

/-! ## The dispatcher -/

/-- The address `esp + n` of the `n`-th word above the stack pointer
(`esp` is a `uint32_t *`). -/
def arg_addr (esp : Nat) (n : Nat) : Nat := wrap32 (esp + 4 * n)

/-- `static void syscall_handler (struct intr_frame *f)`; the frame is
`State.frame`. -/
def syscall_handler (cfg : Config) (env : Env) : K Unit := do
  let s ← getState
  check_ptr cfg s.frame.esp
  let esp := s.frame.esp
  let w ← load32 esp
  let syscall_number := toI32 w
  if syscall_number = cfg.SYS_HALT then
    halt
  else if syscall_number = cfg.SYS_EXIT then
    check_ptr cfg (arg_addr esp 1)
    let a1 ← load32 (arg_addr esp 1)
    exit (toI32 a1)
  else if syscall_number = cfg.SYS_EXEC then
    check_ptr cfg (arg_addr esp 1)
    let a1 ← load32 (arg_addr esp 1)
    let r ← exec cfg env a1
    set_eax (toU32 r)
  else if syscall_number = cfg.SYS_WAIT then
    check_ptr cfg (arg_addr esp 1)
    let a1 ← load32 (arg_addr esp 1)
    let r ← wait env (toI32 a1)
    set_eax (toU32 r)
  else if syscall_number = cfg.SYS_CREATE then
    check_ptr cfg (arg_addr esp 1)
    check_ptr cfg (arg_addr esp 2)
    let a1 ← load32 (arg_addr esp 1)
    let a2 ← load32 (arg_addr esp 2)
    let r ← create cfg env a1 a2
    set_eax (if r then 1 else 0)
  else if syscall_number = cfg.SYS_REMOVE then
    check_ptr cfg (arg_addr esp 1)
    let a1 ← load32 (arg_addr esp 1)
    let r ← remove cfg env a1
    set_eax (if r then 1 else 0)
  else if syscall_number = cfg.SYS_OPEN then
    check_ptr cfg (arg_addr esp 1)
    let a1 ← load32 (arg_addr esp 1)
    let r ← sys_open cfg env a1
    set_eax (toU32 r)
  else if syscall_number = cfg.SYS_FILESIZE then
    check_ptr cfg (arg_addr esp 1)
    let a1 ← load32 (arg_addr esp 1)
    let r ← filesize cfg env (toI32 a1)
    set_eax (toU32 r)
  else if syscall_number = cfg.SYS_READ then
    check_ptr cfg (arg_addr esp 1)
    check_ptr cfg (arg_addr esp 2)
    check_ptr cfg (arg_addr esp 3)
    let a1 ← load32 (arg_addr esp 1)
    let a2 ← load32 (arg_addr esp 2)
    let a3 ← load32 (arg_addr esp 3)
    let r ← read cfg env (toI32 a1) a2 a3
    set_eax (toU32 r)
  else if syscall_number = cfg.SYS_WRITE then
    check_ptr cfg (arg_addr esp 1)
    check_ptr cfg (arg_addr esp 2)
    check_ptr cfg (arg_addr esp 3)
    let a1 ← load32 (arg_addr esp 1)
    let a2 ← load32 (arg_addr esp 2)
    let a3 ← load32 (arg_addr esp 3)
    let r ← write cfg env (toI32 a1) a2 a3
    set_eax (toU32 r)
  else if syscall_number = cfg.SYS_SEEK then
    check_ptr cfg (arg_addr esp 1)
    check_ptr cfg (arg_addr esp 2)
    let a1 ← load32 (arg_addr esp 1)
    let a2 ← load32 (arg_addr esp 2)
    seek (toI32 a1) a2
  else if syscall_number = cfg.SYS_TELL then
    check_ptr cfg (arg_addr esp 1)
    let a1 ← load32 (arg_addr esp 1)
    let r ← tell cfg env (toI32 a1)
    set_eax r
  else if syscall_number = cfg.SYS_CLOSE then
    check_ptr cfg (arg_addr esp 1)
    let a1 ← load32 (arg_addr esp 1)
    close cfg (toI32 a1)
  else
    exit cfg.ERROR

/-! ## Sequences of calls on the file table -/

/-- One call on the open-file table. -/
inductive FileOp where
  /-- The call `process_add_file (f)`. -/
  | add (f : Nat)
  /-- The call `process_close_file (fd)`. -/
  | close (fd : Int)
deriving DecidableEq, Repr

/-- A sequence of `process_add_file` and `process_close_file` calls made one
after the other; the result lists the descriptors the `process_add_file`
calls returned, in call order. -/
def run_file_ops (cfg : Config) : List FileOp → K (List Int)
  | [] => K.pure []
  | FileOp.add f :: ops =>
    K.bind (process_add_file f) fun d =>
      K.bind (run_file_ops cfg ops) fun ds => K.pure (d :: ds)
  | FileOp.close fd :: ops =>
    K.bind (process_close_file cfg fd) fun _ => run_file_ops cfg ops

/-- The number of `process_add_file` calls in a sequence. -/
def count_adds : List FileOp → Nat
  | [] => 0
  | FileOp.add _ :: ops => count_adds ops + 1
  | FileOp.close _ :: ops => count_adds ops

/-- The sequence a program makes that `n` times opens a file and closes the
descriptor it got, when the descriptor counter is `c` at the start:
`process_add_file (f)`, `process_close_file (c)`,
`process_add_file (f)`, `process_close_file (c + 1)`, and so on. -/
def open_close_ops (f : Nat) : Int → Nat → List FileOp
  | _, 0 => []
  | c, n + 1 => FileOp.add f :: FileOp.close c :: open_close_ops f (toI32 (c + 1)) n

/-- The invariant of the file table claimed for it: no two entries of the
file list carry the same descriptor, and every descriptor in the list is
smaller than the descriptor counter. -/
def file_table_inv (s : State) : Prop :=
  List.Pairwise (fun a b : process_file => a.fd ≠ b.fd) s.file_list ∧
  ∀ pf ∈ s.file_list, pf.fd < s.fd

/-- The position of descriptor `x` in the order of issue, for a counter that
started at `c0`: the distance from `c0` modulo `2 ^ 32`. -/
def slot (c0 : Int) (x : Int) : Int := (x - c0) % 4294967296

/-- The file table after `n` descriptors have been issued from a counter
that started at `c0`: the counter is `c0 + n` modulo `2 ^ 32`, and the
entries are in order of issue, each issued among the first `n`. -/
def issued (c0 : Int) (n : Nat) (s : State) : Prop :=
  (s.fd - (c0 + n)) % 4294967296 = 0 ∧
  List.Pairwise (fun a b : process_file => slot c0 a.fd < slot c0 b.fd) s.file_list ∧
  ∀ pf ∈ s.file_list, slot c0 pf.fd < n

/-! ## Reading the trace and the registry -/

/-- The handles on which `file_close` was called, in call order. -/
def closed_handles : List Event → List Nat
  | [] => []
  | Event.file_close f :: es => f :: closed_handles es
  | _ :: es => closed_handles es

/-- The child records on which `free` was called, in call order. -/
def freed_children : List Event → List child_process
  | [] => []
  | Event.free_child_process cp :: es => cp :: freed_children es
  | _ :: es => freed_children es

/-- The record a pointer returned by `get_child_process (pid)` points to. -/
def find_child (pid : Int) (s : State) : Option child_process :=
  (get_child_process pid s).bind fun cp => s.child_list.get? cp

/-- The calls into the file system: `filesys_create`, `filesys_remove`,
`filesys_open`, `file_length`, `file_read`, `file_write`, `file_seek`,
`file_tell` and `file_close`. -/
def is_fs_primitive : Event → Bool
  | Event.filesys_create _ _ => true
  | Event.filesys_remove _ => true
  | Event.filesys_open _ => true
  | Event.file_length _ => true
  | Event.file_read _ _ _ => true
  | Event.file_write _ _ _ => true
  | Event.file_seek _ _ => true
  | Event.file_tell _ => true
  | Event.file_close _ => true
  | _ => false

/-- A run of events replayed against the lock flag `held`: `lock_acquire`
needs the lock free and takes it, `lock_release` needs it held and frees it,
a call into the file system needs it held.  The result is the flag at the
end, or `none` when one of these needs was not met. -/
def lock_discipline : Bool → List Event → Option Bool
  | held, [] => some held
  | held, Event.lock_acquire :: es => if held then none else lock_discipline true es
  | held, Event.lock_release :: es => if held then lock_discipline false es else none
  | held, e :: es =>
    if is_fs_primitive e && !held then none else lock_discipline held es

/-- The state a call ends in. -/
def Outcome.state {α : Type} : Outcome α → State
  | Outcome.ret _ s => s
  | Outcome.exited _ s => s
  | Outcome.halted s => s
  | Outcome.page_fault _ s => s
  | Outcome.assert_failed s => s
  | Outcome.spinning s => s

/-- A handler entered in state `s` keeps the lock discipline: the events it
adds to the trace replay from a free lock to a free lock, and the lock flag
is free in the state it ends in, however it ends. -/
def keeps_lock_discipline {α : Type} (s : State) (o : Outcome α) : Prop :=
  ∃ evs, o.state.trace = s.trace ++ evs ∧ lock_discipline false evs = some false ∧
    o.state.lock_held = false

/-! ## Concrete constants and states used in the examples -/

/-- The values the constants have in the stock headers of the kernel: the
system-call numbers of `lib/syscall-nr.h`, descriptors 0 and 1 for the
console, `-1` for `ERROR` and `CLOSE_ALL`, and `PHYS_BASE = 0xc0000000` as
the end of user virtual memory. -/
def stock : Config where
  ERROR := -1
  CLOSE_ALL := -1
  NOT_LOADED := 0
  LOAD_FAIL := 2
  STDIN_FILENO := 0
  STDOUT_FILENO := 1
  SYS_HALT := 0
  SYS_EXIT := 1
  SYS_EXEC := 2
  SYS_WAIT := 3
  SYS_CREATE := 4
  SYS_REMOVE := 5
  SYS_OPEN := 6
  SYS_FILESIZE := 7
  SYS_READ := 8
  SYS_WRITE := 9
  SYS_SEEK := 10
  SYS_TELL := 11
  SYS_CLOSE := 12
  is_user_vaddr := fun p => decide (p < 3221225472)

/-- An environment in which every outside call returns zero (or `false`) and
process creation leaves the child list alone. -/
def env0 : Env where
  filesys_create := fun _ _ _ => false
  filesys_remove := fun _ _ => false
  filesys_open := fun _ _ => 0
  file_length := fun _ _ => 0
  file_read := fun _ _ _ _ => 0
  file_write := fun _ _ _ _ => 0
  file_tell := fun _ _ => 0
  input_getc := fun _ => 0
  process_execute := fun _ l _ => (0, l)
  process_wait := fun _ l _ => (0, l)
  child_load := fun _ _ => 0
  spin_fuel := 0

/-- An environment in which process creation returns pid 7 after appending
a record for it to the child list, and the child is seen to have loaded
(`load = 1`) at every read. -/
def env_spawn : Env :=
  { env0 with
    process_execute := fun _ l _ =>
      (7, l ++ [{ pid := 7, load := 0, wait := false, exit := false, status := none }])
    child_load := fun _ _ => 1
    spin_fuel := 1 }

/-- A page directory that maps exactly the user page `0x08048000 ..
0x08048fff` (to the kernel page at `0xc0100000`). -/
def one_page : Nat → Nat := fun a =>
  if 134512640 ≤ a ∧ a < 134516736 then 3222274048 + (a - 134512640) else 0

/-- Memory that holds the word 13 at `0x08048000` and zero elsewhere. -/
def mem13 : Nat → Nat := fun a => if a = 134512640 then 13 else 0

/-- A process `main` with the page directory `one_page`, memory whose byte at
address `a` is `mem a`, stack pointer `esp`, an empty file table with
descriptor counter 2, no children, a live parent and a free lock. -/
def state0 (mem : Nat → Nat) (esp : Nat) : State where
  name := "main"
  pagedir := one_page
  mem := mem
  fd := 2
  file_list := []
  child_list := []
  parent_alive := true
  cp := { pid := 3, load := 1, wait := false, exit := false, status := none }
  frame := { esp := esp, eax := 0 }
  lock_held := false
  trace := []

/-- The process of `state0` with the file list `l` and the descriptor
counter `fd`. -/
def state_files (l : List process_file) (fd : Int) : State :=
  { state0 (fun _ => 0) 0 with fd := fd, file_list := l }

/-- Memory that holds the system-call number 12 (`SYS_CLOSE`) at
`0x08048000` and the argument word `0xffffffff` at `0x08048004`. -/
def mem_close_all : Nat → Nat := fun a =>
  if a = 134512640 then 12 else if 134512644 ≤ a ∧ a < 134512648 then 255 else 0

/-- The process of `state0` with memory `mem`, stack pointer `0x08048000`,
the file list `l` and the descriptor counter `fd`. -/
def state_trap (mem : Nat → Nat) (l : List process_file) (fd : Int) : State :=
  { state0 mem 134512640 with fd := fd, file_list := l }

/-- The process of `state0` with the child list `l`. -/
def state_children (l : List child_process) : State :=
  { state0 (fun _ => 0) 0 with child_list := l }

/-- An environment like `env_spawn` in which the child is seen not to have
loaded yet at the first two reads and to have failed to load (`load = 2`)
from the third read on. -/
def env_spawn_fail : Env :=
  { env_spawn with
    child_load := fun _ k => if k < 2 then 0 else 2
    spin_fuel := 5 }

/-! ## Basic facts -/

theorem wrap32_lt (n : Nat) : wrap32 n < 4294967296 := by
  unfold wrap32; omega

theorem wrap32_of_lt {n : Nat} (h : n < 4294967296) : wrap32 n = n := by
  unfold wrap32; omega

theorem wrap32_succ_add (p i : Nat) : wrap32 (wrap32 (p + 1) + i) = wrap32 (p + (i + 1)) := by
  unfold wrap32; omega

/-- The two ways `check_ptr` can end. -/
theorem check_ptr_cases (cfg : Config) (s : State) (ptr : Nat) :
    (valid_ptr cfg s ptr ∧ check_ptr cfg ptr s = Outcome.ret () s) ∨
    (¬ valid_ptr cfg s ptr ∧
      check_ptr cfg ptr s = Outcome.exited cfg.ERROR (exit_state cfg.ERROR s)) := by
  unfold check_ptr valid_ptr exit
  by_cases h0 : ptr = 0
  · right; simp [h0]
  · by_cases hu : cfg.is_user_vaddr ptr = false
    · right; simp [hu]
    · by_cases hp : s.pagedir ptr = 0
      · right; simp [h0, hu, hp]
      · left; simp [h0, hu, hp]

theorem check_ptr_ret_iff (cfg : Config) (s : State) (ptr : Nat) :
    check_ptr cfg ptr s = Outcome.ret () s ↔ valid_ptr cfg s ptr := by
  rcases check_ptr_cases cfg s ptr with ⟨hv, h⟩ | ⟨hv, h⟩
  · simp [h, hv]
  · simp [h, hv]

theorem check_ptr_exit_iff (cfg : Config) (s : State) (ptr : Nat) :
    check_ptr cfg ptr s = Outcome.exited cfg.ERROR (exit_state cfg.ERROR s) ↔
      ¬ valid_ptr cfg s ptr := by
  rcases check_ptr_cases cfg s ptr with ⟨hv, h⟩ | ⟨hv, h⟩
  · simp [h, hv]
  · simp [h, hv]

/-- The loop of `check_buffer` returns when all its addresses are valid and
terminates the process at the first that is not. -/
theorem check_buffer_loop_cases (cfg : Config) (s : State) :
    ∀ (n p : Nat), p < 4294967296 →
      ((∀ i, i < n → valid_ptr cfg s (wrap32 (p + i))) ∧
        check_buffer_loop cfg n p s = Outcome.ret () s) ∨
      ((∃ i, i < n ∧ ¬ valid_ptr cfg s (wrap32 (p + i))) ∧
        check_buffer_loop cfg n p s = Outcome.exited cfg.ERROR (exit_state cfg.ERROR s)) := by
  intro n
  induction n with
  | zero =>
    intro p _
    left
    exact ⟨fun i hi => absurd hi (Nat.not_lt_zero i), rfl⟩
  | succ n ih =>
    intro p hp
    rcases check_ptr_cases cfg s p with ⟨hv, h⟩ | ⟨hv, h⟩
    · rcases ih (wrap32 (p + 1)) (wrap32_lt _) with ⟨hall, hr⟩ | ⟨⟨i, hi, hbad⟩, hr⟩
      · left
        refine ⟨?_, ?_⟩
        · intro i hi
          cases i with
          | zero => simpa [wrap32_of_lt hp] using hv
          | succ j =>
            have := hall j (by omega)
            rwa [wrap32_succ_add] at this
        · simp [check_buffer_loop, K.bind, h, hr]
      · right
        refine ⟨⟨i + 1, by omega, ?_⟩, ?_⟩
        · rwa [wrap32_succ_add] at hbad
        · simp [check_buffer_loop, K.bind, h, hr]
    · right
      refine ⟨⟨0, by omega, ?_⟩, ?_⟩
      · simpa [wrap32_of_lt hp] using hv
      · simp [check_buffer_loop, K.bind, h]

/-! ## Pointer validation (C1, C2) -/

/-- C1: `check_ptr (ptr)` terminates the process with status `ERROR` (through
`exit`, so the termination message is printed and the status recorded, and
nothing is returned) exactly when `ptr` is null, is not a user virtual
address, or is not mapped by the page directory of the caller; exactly in
the remaining case it returns, and the state is the one it was called in. -/
theorem check_ptr_contract (cfg : Config) (s : State) (ptr : Nat) :
    (check_ptr cfg ptr s = Outcome.exited cfg.ERROR (exit_state cfg.ERROR s) ↔
      (ptr = 0 ∨ cfg.is_user_vaddr ptr = false ∨ s.pagedir ptr = 0)) ∧
    (check_ptr cfg ptr s = Outcome.ret () s ↔
      ¬ (ptr = 0 ∨ cfg.is_user_vaddr ptr = false ∨ s.pagedir ptr = 0)) ∧
    ((∃ r s1, check_ptr cfg ptr s = Outcome.ret r s1) ↔
      ¬ (∃ st s1, check_ptr cfg ptr s = Outcome.exited st s1)) := by
  have hv : valid_ptr cfg s ptr ↔
      ¬ (ptr = 0 ∨ cfg.is_user_vaddr ptr = false ∨ s.pagedir ptr = 0) := by
    unfold valid_ptr
    cases cfg.is_user_vaddr ptr <;> simp
  refine ⟨?_, ?_, ?_⟩
  · rw [check_ptr_exit_iff, hv, not_not]
  · rw [check_ptr_ret_iff, hv]
  · rcases check_ptr_cases cfg s ptr with ⟨_, h⟩ | ⟨_, h⟩
    · simp [h]
    · simp [h]

/-- C2: for a 32-bit buffer address, `check_buffer (buffer, size)` returns
(in the state it was called in) exactly when `check_ptr` returns on each of
the `size` addresses `buffer`, `buffer + 1`, ..., `buffer + size - 1`
(taken modulo `2 ^ 32`); otherwise, that is when some address of the range
fails `check_ptr`, wherever it lies in the range, the process is terminated
with `ERROR`; with `size = 0` it returns. -/
theorem check_buffer_contract (cfg : Config) (s : State) (buffer size : Nat)
    (hb : buffer < 4294967296) :
    (check_buffer cfg buffer size s = Outcome.ret () s ↔
      ∀ i, i < size → check_ptr cfg (wrap32 (buffer + i)) s = Outcome.ret () s) ∧
    (check_buffer cfg buffer size s = Outcome.exited cfg.ERROR (exit_state cfg.ERROR s) ↔
      ∃ i, i < size ∧ check_ptr cfg (wrap32 (buffer + i)) s ≠ Outcome.ret () s) ∧
    ((∃ r s1, check_buffer cfg buffer size s = Outcome.ret r s1) ↔
      check_buffer cfg buffer size s = Outcome.ret () s) ∧
    check_buffer cfg buffer 0 s = Outcome.ret () s := by
  simp only [check_ptr_ret_iff, ne_eq]
  unfold check_buffer
  refine ⟨?_, ?_, ?_, rfl⟩
  · rcases check_buffer_loop_cases cfg s size buffer hb with ⟨hall, hr⟩ | ⟨⟨i, hi, hbad⟩, hr⟩
    · simp [hr]; exact hall
    · simp [hr]; exact ⟨i, hi, hbad⟩
  · rcases check_buffer_loop_cases cfg s size buffer hb with ⟨hall, hr⟩ | ⟨⟨i, hi, hbad⟩, hr⟩
    · simp [hr]; exact hall
    · simp [hr]; exact ⟨i, hi, hbad⟩
  · rcases check_buffer_loop_cases cfg s size buffer hb with ⟨_, hr⟩ | ⟨_, hr⟩
    · simp [hr]
    · simp [hr]

theorem bind_eq {α β : Type} (m : K α) (k : α → K β) : (m >>= k) = K.bind m k := rfl

theorem pure_eq {α : Type} (a : α) : (pure a : K α) = K.pure a := rfl

/-- C2, at a buffer of four bytes whose last two lie in an unmapped page. -/
theorem check_buffer_contract_witness :
    (134516734 : Nat) < 4294967296 ∧
    check_buffer stock 134516734 4 (state0 (fun _ => 0) 0) =
      Outcome.exited stock.ERROR (exit_state stock.ERROR (state0 (fun _ => 0) 0)) :=
  ⟨by decide,
    (check_buffer_contract stock (state0 (fun _ => 0) 0) 134516734 4 (by decide)).2.1.mpr
      ⟨2, by decide,
        fun h => absurd ((check_ptr_ret_iff _ _ _).mp h) (by decide)⟩⟩

/-! ## Words and strings read on behalf of the user (C3, C4) -/

/-- C3, at the stack pointer `0x08048fff`, the last byte of the only mapped
page: `check_ptr` returns on `esp`, the byte after it is not mapped, and
`syscall_handler` does not terminate the process with `ERROR` but goes on to
load the four-byte word at `esp`, faulting at `0x08049000`; `check_buffer`
on the same four bytes does terminate the process with `ERROR`. -/
theorem syscall_handler_word_across_unmapped_page :
    check_ptr stock 134516735 (state0 (fun _ => 0) 134516735) =
      Outcome.ret () (state0 (fun _ => 0) 134516735) ∧
    ¬ valid_ptr stock (state0 (fun _ => 0) 134516735) (wrap32 (134516735 + 1)) ∧
    syscall_handler stock env0 (state0 (fun _ => 0) 134516735) =
      Outcome.page_fault 134516736
        { state0 (fun _ => 0) 134516735 with trace := [Event.load32 134516735] } ∧
    check_buffer stock 134516735 4 (state0 (fun _ => 0) 134516735) =
      Outcome.exited stock.ERROR (exit_state stock.ERROR (state0 (fun _ => 0) 134516735)) :=
  ⟨rfl, by decide, rfl, rfl⟩

/-- C4, at the string pointer `0x08048fff`, the last byte of the only mapped
page, holding the letter `a`: the string continues at `0x08049000`, which is
not mapped, yet `create` hands the pointer to `filesys_create` and returns,
and `exec` hands its translation to `process_execute` and returns the new
pid. -/
theorem create_exec_string_across_unmapped_page :
    (state0 (fun _ => 97) 0).mem 134516735 ≠ 0 ∧
    ¬ valid_ptr stock (state0 (fun _ => 97) 0) (wrap32 (134516735 + 1)) ∧
    create stock env0 134516735 0 (state0 (fun _ => 97) 0) =
      Outcome.ret false
        { state0 (fun _ => 97) 0 with
          trace := [Event.lock_acquire, Event.filesys_create 134516735 0,
                    Event.lock_release] } ∧
    exec stock env_spawn 134516735 (state0 (fun _ => 97) 0) =
      Outcome.ret 7
        { state0 (fun _ => 97) 0 with
          child_list := [{ pid := 7, load := 1, wait := false, exit := false,
                           status := none }]
          trace := [Event.process_execute 3222278143] } :=
  ⟨by decide, by decide, rfl, rfl⟩

/-! ## Buffers of `read` and `write` (C5) -/

/-- C5: when some byte of `[buffer, buffer + size)` fails validation, `read`
and `write` terminate the process with `ERROR` in the state `exit` makes of
the one they were called in: the trace has grown by the termination message
alone (no `input_getc`, `putbuf`, `file_read`, `file_write`, no
`lock_acquire`), and the lock, the file table, the descriptor counter and
the user memory are as before. -/
theorem read_write_invalid_buffer (cfg : Config) (env : Env) (s : State) (fd : Int)
    (buffer size : Nat) (hb : buffer < 4294967296)
    (h : ∃ i, i < size ∧ ¬ valid_ptr cfg s (wrap32 (buffer + i))) :
    read cfg env fd buffer size s = Outcome.exited cfg.ERROR (exit_state cfg.ERROR s) ∧
    write cfg env fd buffer size s = Outcome.exited cfg.ERROR (exit_state cfg.ERROR s) ∧
    (exit_state cfg.ERROR s).trace = s.trace ++ [Event.printf_exit s.name cfg.ERROR] ∧
    (exit_state cfg.ERROR s).lock_held = s.lock_held ∧
    (exit_state cfg.ERROR s).file_list = s.file_list ∧
    (exit_state cfg.ERROR s).fd = s.fd ∧
    (exit_state cfg.ERROR s).mem = s.mem := by
  have hr : check_buffer_loop cfg size buffer s =
      Outcome.exited cfg.ERROR (exit_state cfg.ERROR s) := by
    rcases check_buffer_loop_cases cfg s size buffer hb with ⟨hall, _⟩ | ⟨_, hr⟩
    · obtain ⟨i, hi, hbad⟩ := h
      exact absurd (hall i hi) hbad
    · exact hr
  refine ⟨?_, ?_, ?_, ?_, ?_, ?_, ?_⟩
  · simp [read, bind_eq, K.bind, check_buffer, hr]
  · simp [write, bind_eq, K.bind, check_buffer, hr]
  all_goals (unfold exit_state; cases s.parent_alive <;> simp)

/-- C5, at a buffer of four bytes whose last two lie in an unmapped page. -/
theorem read_write_invalid_buffer_witness :
    (134516734 : Nat) < 4294967296 ∧
    (∃ i, i < 4 ∧ ¬ valid_ptr stock (state0 (fun _ => 0) 0) (wrap32 (134516734 + i))) ∧
    read stock env0 5 134516734 4 (state0 (fun _ => 0) 0) =
      Outcome.exited stock.ERROR (exit_state stock.ERROR (state0 (fun _ => 0) 0)) ∧
    write stock env0 5 134516734 4 (state0 (fun _ => 0) 0) =
      Outcome.exited stock.ERROR (exit_state stock.ERROR (state0 (fun _ => 0) 0)) :=
  ⟨by decide, ⟨2, by decide, by decide⟩,
    (read_write_invalid_buffer stock env0 (state0 (fun _ => 0) 0) 5 134516734 4
      (by decide) ⟨2, by decide, by decide⟩).1,
    (read_write_invalid_buffer stock env0 (state0 (fun _ => 0) 0) 5 134516734 4
      (by decide) ⟨2, by decide, by decide⟩).2.1⟩

/-! ## Unknown system-call numbers (C6) -/

/-- C6: when `esp` passes `check_ptr`, the load of the word at `esp` yields
`w`, and `w` (as an `int`) is none of the thirteen system-call numbers,
`syscall_handler` terminates the process with `ERROR`.  The state it ends in
is the one `exit` makes right after the load: the trace has grown by the
load and the termination message only, so no handler ran, and the frame,
`eax` included, the lock, the file table and the child list are as before. -/
theorem syscall_handler_unknown_number (cfg : Config) (env : Env) (s s1 : State) (w : Nat)
    (hesp : valid_ptr cfg s s.frame.esp)
    (hload : load32 s.frame.esp s = Outcome.ret w s1)
    (hnum : toI32 w ≠ cfg.SYS_HALT ∧ toI32 w ≠ cfg.SYS_EXIT ∧ toI32 w ≠ cfg.SYS_EXEC ∧
      toI32 w ≠ cfg.SYS_WAIT ∧ toI32 w ≠ cfg.SYS_CREATE ∧ toI32 w ≠ cfg.SYS_REMOVE ∧
      toI32 w ≠ cfg.SYS_OPEN ∧ toI32 w ≠ cfg.SYS_FILESIZE ∧ toI32 w ≠ cfg.SYS_READ ∧
      toI32 w ≠ cfg.SYS_WRITE ∧ toI32 w ≠ cfg.SYS_SEEK ∧ toI32 w ≠ cfg.SYS_TELL ∧
      toI32 w ≠ cfg.SYS_CLOSE) :
    syscall_handler cfg env s = Outcome.exited cfg.ERROR (exit_state cfg.ERROR s1) ∧
    (exit_state cfg.ERROR s1).trace =
      s.trace ++ [Event.load32 s.frame.esp, Event.printf_exit s.name cfg.ERROR] ∧
    (exit_state cfg.ERROR s1).frame = s.frame ∧
    (exit_state cfg.ERROR s1).lock_held = s.lock_held ∧
    (exit_state cfg.ERROR s1).file_list = s.file_list ∧
    (exit_state cfg.ERROR s1).child_list = s.child_list := by
  obtain ⟨h0, h1, h2, h3, h4, h5, h6, h7, h8, h9, h10, h11, h12⟩ := hnum
  have hc := (check_ptr_ret_iff cfg s s.frame.esp).mpr hesp
  have hs1 : s1 = { s with trace := s.trace ++ [Event.load32 s.frame.esp] } := by
    unfold load32 at hload
    split_ifs at hload
    simp at hload
    exact hload.2.symm
  refine ⟨?_, ?_, ?_, ?_, ?_, ?_⟩
  · simp [syscall_handler, bind_eq, K.bind, getState, hc, hload, h0, h1, h2, h3, h4, h5,
      h6, h7, h8, h9, h10, h11, h12, exit]
  all_goals (subst hs1; unfold exit_state; cases s.parent_alive <;> simp)

/-- C6, at a frame whose stack pointer is the start of the mapped page and
whose system-call number is 13. -/
theorem syscall_handler_unknown_number_witness :
    valid_ptr stock (state0 mem13 134512640) (state0 mem13 134512640).frame.esp ∧
    load32 (state0 mem13 134512640).frame.esp (state0 mem13 134512640) =
      Outcome.ret 13 { state0 mem13 134512640 with trace := [Event.load32 134512640] } ∧
    syscall_handler stock env0 (state0 mem13 134512640) =
      Outcome.exited (-1)
        { state0 mem13 134512640 with
          cp := { pid := 3, load := 1, wait := false, exit := false, status := some (-1) }
          trace := [Event.load32 134512640, Event.printf_exit "main" (-1)] } :=
  ⟨by decide, rfl,
    (syscall_handler_unknown_number stock env0 (state0 mem13 134512640)
      { state0 mem13 134512640 with trace := [Event.load32 134512640] } 13
      (by decide) rfl (by decide)).1⟩

/-! ## The open-file table: stepping through a sequence of calls -/

theorem process_add_file_eq (f : Nat) (s : State) :
    process_add_file f s =
      Outcome.ret s.fd
        { s with fd := toI32 (s.fd + 1),
                 file_list := s.file_list ++ [{ file := f, fd := s.fd }] } := rfl

theorem process_close_file_eq (cfg : Config) (fd : Int) (s : State) :
    process_close_file cfg fd s =
      Outcome.ret ()
        { s with file_list := (process_close_file_loop cfg fd s.file_list).1,
                 trace := s.trace ++ (process_close_file_loop cfg fd s.file_list).2 } := rfl

/-- A sequence of calls on the file table always runs to its end. -/
theorem run_file_ops_total (cfg : Config) : ∀ (ops : List FileOp) (s : State),
    ∃ ds s1, run_file_ops cfg ops s = Outcome.ret ds s1 := by
  intro ops
  induction ops with
  | nil => intro s; exact ⟨[], s, rfl⟩
  | cons op ops ih =>
    intro s
    cases op with
    | add f =>
      obtain ⟨ds, s1, h⟩ := ih { s with fd := toI32 (s.fd + 1),
                                        file_list := s.file_list ++ [{ file := f, fd := s.fd }] }
      exact ⟨s.fd :: ds, s1, by simp [run_file_ops, K.bind, process_add_file, h, K.pure]⟩
    | close fd =>
      obtain ⟨ds, s1, h⟩ := ih { s with
        file_list := (process_close_file_loop cfg fd s.file_list).1,
        trace := s.trace ++ (process_close_file_loop cfg fd s.file_list).2 }
      exact ⟨ds, s1, by simp [run_file_ops, K.bind, process_close_file, h]⟩

theorem run_file_ops_nil (cfg : Config) (s s1 : State) (ds : List Int)
    (h : run_file_ops cfg [] s = Outcome.ret ds s1) : ds = [] ∧ s1 = s := by
  simp [run_file_ops, K.pure] at h
  exact ⟨h.1, h.2.symm⟩

theorem run_file_ops_add (cfg : Config) (f : Nat) (ops : List FileOp) (s s1 : State)
    (ds : List Int) (h : run_file_ops cfg (FileOp.add f :: ops) s = Outcome.ret ds s1) :
    ∃ ds1, ds = s.fd :: ds1 ∧
      run_file_ops cfg ops
        { s with fd := toI32 (s.fd + 1),
                 file_list := s.file_list ++ [{ file := f, fd := s.fd }] } =
        Outcome.ret ds1 s1 := by
  obtain ⟨ds1, s2, h2⟩ := run_file_ops_total cfg ops
    { s with fd := toI32 (s.fd + 1), file_list := s.file_list ++ [{ file := f, fd := s.fd }] }
  simp [run_file_ops, K.bind, process_add_file, h2, K.pure] at h
  exact ⟨ds1, h.1.symm, by rw [h2, h.2]⟩

theorem run_file_ops_close (cfg : Config) (fd : Int) (ops : List FileOp) (s s1 : State)
    (ds : List Int) (h : run_file_ops cfg (FileOp.close fd :: ops) s = Outcome.ret ds s1) :
    run_file_ops cfg ops
      { s with file_list := (process_close_file_loop cfg fd s.file_list).1,
               trace := s.trace ++ (process_close_file_loop cfg fd s.file_list).2 } =
      Outcome.ret ds s1 := by
  simpa [run_file_ops, K.bind, process_close_file] using h

theorem run_file_ops_add_intro (cfg : Config) (f : Nat) (ops : List FileOp) (s s1 : State)
    (ds : List Int)
    (h : run_file_ops cfg ops
        { s with fd := toI32 (s.fd + 1),
                 file_list := s.file_list ++ [{ file := f, fd := s.fd }] } =
        Outcome.ret ds s1) :
    run_file_ops cfg (FileOp.add f :: ops) s = Outcome.ret (s.fd :: ds) s1 := by
  simp [run_file_ops, K.bind, process_add_file, h, K.pure]

theorem run_file_ops_close_intro (cfg : Config) (fd : Int) (ops : List FileOp)
    (s s1 : State) (ds : List Int)
    (h : run_file_ops cfg ops
        { s with file_list := (process_close_file_loop cfg fd s.file_list).1,
                 trace := s.trace ++ (process_close_file_loop cfg fd s.file_list).2 } =
        Outcome.ret ds s1) :
    run_file_ops cfg (FileOp.close fd :: ops) s = Outcome.ret ds s1 := by
  simp [run_file_ops, K.bind, process_close_file, h]

/-- Running two sequences one after the other. -/
theorem run_file_ops_append (cfg : Config) : ∀ (a b : List FileOp) (s sa sb : State)
    (da db : List Int), run_file_ops cfg a s = Outcome.ret da sa →
      run_file_ops cfg b sa = Outcome.ret db sb →
      run_file_ops cfg (a ++ b) s = Outcome.ret (da ++ db) sb := by
  intro a
  induction a with
  | nil =>
    intro b s sa sb da db ha hb
    obtain ⟨rfl, rfl⟩ := run_file_ops_nil cfg s sa da ha
    simpa using hb
  | cons op a ih =>
    intro b s sa sb da db ha hb
    cases op with
    | add f =>
      obtain ⟨ds1, rfl, h1⟩ := run_file_ops_add cfg f a s sa da ha
      exact run_file_ops_add_intro cfg f (a ++ b) s sb (ds1 ++ db) (ih b _ sa sb ds1 db h1 hb)
    | close fd =>
      have h1 := run_file_ops_close cfg fd a s sa da ha
      exact run_file_ops_close_intro cfg fd (a ++ b) s sb (da ++ db) (ih b _ sa sb da db h1 hb)

/-! ## The open-file table: lookups and removals -/

theorem process_get_file_loop_absent (fd : Int) : ∀ (l : List process_file),
    (∀ pf ∈ l, pf.fd ≠ fd) → process_get_file_loop fd l = 0 := by
  intro l
  induction l with
  | nil => intro _; rfl
  | cons pf l ih =>
    intro h
    have h1 : fd ≠ pf.fd := fun e => h pf (List.mem_cons_self _ _) e.symm
    simp only [process_get_file_loop, if_neg h1]
    exact ih fun q hq => h q (List.mem_cons_of_mem _ hq)

theorem process_get_file_loop_append_absent (fd : Int) (l2 : List process_file) :
    ∀ (l : List process_file), (∀ pf ∈ l, pf.fd ≠ fd) →
      process_get_file_loop fd (l ++ l2) = process_get_file_loop fd l2 := by
  intro l
  induction l with
  | nil => intro _; rfl
  | cons pf l ih =>
    intro h
    have h1 : fd ≠ pf.fd := fun e => h pf (List.mem_cons_self _ _) e.symm
    simp only [List.cons_append, process_get_file_loop, if_neg h1]
    exact ih fun q hq => h q (List.mem_cons_of_mem _ hq)

theorem process_get_file_loop_append_other (e d : Int) (h : Nat) (hne : e ≠ d) :
    ∀ (l : List process_file),
      process_get_file_loop e (l ++ [{ file := h, fd := d }]) = process_get_file_loop e l := by
  intro l
  induction l with
  | nil => simp [process_get_file_loop, hne]
  | cons pf l ih =>
    by_cases h1 : e = pf.fd
    · simp [process_get_file_loop, h1]
    · simp [process_get_file_loop, h1, ih]

/-- What `process_close_file` leaves is a sublist of the file list. -/
theorem process_close_file_loop_sublist (cfg : Config) (fd : Int) :
    ∀ (l : List process_file), List.Sublist (process_close_file_loop cfg fd l).1 l := by
  intro l
  induction l with
  | nil => exact List.Sublist.slnil
  | cons pf l ih =>
    unfold process_close_file_loop
    split_ifs
    · exact List.sublist_cons_self pf l
    · exact List.Sublist.cons pf ih
    · exact List.Sublist.cons₂ pf ih

theorem process_close_file_loop_get_self (cfg : Config) (fd : Int) (hfd : fd ≠ cfg.CLOSE_ALL) :
    ∀ (l : List process_file), List.Pairwise (fun a b : process_file => a.fd ≠ b.fd) l →
      process_get_file_loop fd (process_close_file_loop cfg fd l).1 = 0 := by
  intro l
  induction l with
  | nil => intro _; rfl
  | cons pf l ih =>
    intro hp
    rw [List.pairwise_cons] at hp
    unfold process_close_file_loop
    by_cases h1 : fd = pf.fd
    · simp only [h1, true_or, if_true]
      rw [if_pos (h1 ▸ hfd)]
      exact process_get_file_loop_absent pf.fd l fun q hq e => hp.1 q hq e.symm
    · simp only [h1, hfd, or_self, if_false]
      simp only [process_get_file_loop, if_neg h1]
      exact ih hp.2

theorem process_close_file_loop_get_other (cfg : Config) (fd d : Int)
    (hfd : fd ≠ cfg.CLOSE_ALL) (hd : d ≠ fd) :
    ∀ (l : List process_file),
      process_get_file_loop d (process_close_file_loop cfg fd l).1 =
        process_get_file_loop d l := by
  intro l
  induction l with
  | nil => rfl
  | cons pf l ih =>
    unfold process_close_file_loop
    by_cases h1 : fd = pf.fd
    · simp only [h1, true_or, if_true]
      rw [if_pos (h1 ▸ hfd)]
      have h2 : d ≠ pf.fd := h1 ▸ hd
      simp [process_get_file_loop, h2]
    · simp only [h1, hfd, or_self, if_false]
      by_cases h2 : d = pf.fd
      · simp [process_get_file_loop, h2]
      · simp [process_get_file_loop, h2, ih]

/-! ## The open-file table: descriptors in order of issue -/

theorem toI32_range (z : Int) : -2147483648 ≤ toI32 z ∧ toI32 z < 2147483648 := by
  unfold toI32; omega

theorem toI32_add_succ (c : Int) (i : Nat) :
    toI32 (toI32 (c + 1) + (i : Int)) = toI32 (c + ((i + 1 : Nat) : Int)) := by
  unfold toI32; push_cast; omega

/-- While the counter does not pass `INT_MAX`, the descriptors returned by a
sequence of calls go up from the counter in steps of one. -/
theorem run_file_ops_increasing (cfg : Config) : ∀ (ops : List FileOp) (s : State),
    -2147483648 ≤ s.fd → s.fd + (count_adds ops : Int) ≤ 2147483648 →
    ∃ ds s1, run_file_ops cfg ops s = Outcome.ret ds s1 ∧
      ds.length = count_adds ops ∧
      List.Pairwise (fun a b : Int => a < b) ds ∧
      ∀ d ∈ ds, s.fd ≤ d ∧ d < s.fd + (count_adds ops : Int) := by
  intro ops
  induction ops with
  | nil =>
    intro s _ _
    exact ⟨[], s, rfl, rfl, List.Pairwise.nil, fun d hd => absurd hd (List.not_mem_nil d)⟩
  | cons op ops ih =>
    intro s hlo hhi
    cases op with
    | add f =>
      simp only [count_adds, Nat.cast_add, Nat.cast_one] at hhi ⊢
      have hr := toI32_range (s.fd + 1)
      have hid : 0 < (count_adds ops : Int) → toI32 (s.fd + 1) = s.fd + 1 := by
        intro hpos; unfold toI32; omega
      obtain ⟨ds, s1, hrun, hlen, hpw, hb⟩ :=
        ih { s with fd := toI32 (s.fd + 1),
                    file_list := s.file_list ++ [{ file := f, fd := s.fd }] }
          hr.1 (by
            show toI32 (s.fd + 1) + (count_adds ops : Int) ≤ 2147483648
            by_cases hpos : 0 < (count_adds ops : Int)
            · rw [hid hpos]; omega
            · omega)
      have hb2 : ∀ d ∈ ds, s.fd < d ∧ d < s.fd + ((count_adds ops : Int) + 1) := by
        intro d hd
        have h1 := hb d hd
        simp only at h1
        have hpos : 0 < (count_adds ops : Int) := by omega
        rw [hid hpos] at h1
        omega
      refine ⟨s.fd :: ds, s1, run_file_ops_add_intro cfg f ops s s1 ds hrun, by simp [hlen],
        List.pairwise_cons.mpr ⟨fun d hd => (hb2 d hd).1, hpw⟩, ?_⟩
      intro d hd
      rcases List.mem_cons.mp hd with rfl | hd
      · omega
      · have := hb2 d hd
        omega
    | close fd =>
      simp only [count_adds] at hhi ⊢
      obtain ⟨ds, s1, hrun, hlen, hpw, hb⟩ :=
        ih { s with file_list := (process_close_file_loop cfg fd s.file_list).1,
                    trace := s.trace ++ (process_close_file_loop cfg fd s.file_list).2 }
          hlo hhi
      exact ⟨ds, s1, run_file_ops_close_intro cfg fd ops s s1 ds hrun, hlen, hpw, hb⟩

/-- The table with no entries has issued nothing. -/
theorem issued_init (s : State) (h : s.file_list = []) : issued s.fd 0 s := by
  refine ⟨by simp, ?_, ?_⟩
  · rw [h]; exact List.Pairwise.nil
  · rw [h]; intro pf hpf; exact absurd hpf (List.not_mem_nil pf)

/-- Up to `2 ^ 32` issues, the entries stay in order of issue. -/
theorem issued_run (cfg : Config) (c0 : Int) : ∀ (ops : List FileOp) (s s1 : State)
    (ds : List Int) (n : Nat), issued c0 n s → n + count_adds ops ≤ 4294967296 →
    run_file_ops cfg ops s = Outcome.ret ds s1 → issued c0 (n + count_adds ops) s1 := by
  intro ops
  induction ops with
  | nil =>
    intro s s1 ds n hi _ hrun
    obtain ⟨_, rfl⟩ := run_file_ops_nil cfg s s1 ds hrun
    simpa [count_adds] using hi
  | cons op ops ih =>
    intro s s1 ds n hi hn hrun
    cases op with
    | add f =>
      obtain ⟨ds1, _, h1⟩ := run_file_ops_add cfg f ops s s1 ds hrun
      simp only [count_adds] at hn ⊢
      have hstep : issued c0 (n + 1)
          { s with fd := toI32 (s.fd + 1),
                   file_list := s.file_list ++ [{ file := f, fd := s.fd }] } := by
        obtain ⟨hc, hp, hb⟩ := hi
        have hslot : slot c0 s.fd = (n : Int) := by unfold slot; omega
        refine ⟨?_, ?_, ?_⟩
        · show (toI32 (s.fd + 1) - (c0 + ((n + 1 : Nat) : Int))) % 4294967296 = 0
          unfold toI32; push_cast; omega
        · show List.Pairwise _ (s.file_list ++ [{ file := f, fd := s.fd }])
          rw [List.pairwise_append]
          refine ⟨hp, List.pairwise_singleton _ _, ?_⟩
          intro a ha b hb1
          rw [List.mem_singleton] at hb1
          subst hb1
          show slot c0 a.fd < slot c0 s.fd
          rw [hslot]
          exact hb a ha
        · intro pf hpf
          have hpf2 : pf ∈ s.file_list ++ [{ file := f, fd := s.fd }] := hpf
          rcases List.mem_append.mp hpf2 with h | h
          · have := hb pf h
            push_cast; omega
          · rw [List.mem_singleton] at h
            subst h
            show slot c0 s.fd < ((n + 1 : Nat) : Int)
            rw [hslot]; push_cast; omega
      have := ih _ s1 ds1 (n + 1) hstep (by omega) h1
      rwa [show n + 1 + count_adds ops = n + (count_adds ops + 1) by omega] at this
    | close fd =>
      have h1 := run_file_ops_close cfg fd ops s s1 ds hrun
      simp only [count_adds] at hn ⊢
      have hstep : issued c0 n
          { s with file_list := (process_close_file_loop cfg fd s.file_list).1,
                   trace := s.trace ++ (process_close_file_loop cfg fd s.file_list).2 } := by
        obtain ⟨hc, hp, hb⟩ := hi
        exact ⟨hc, hp.sublist (process_close_file_loop_sublist cfg fd s.file_list),
          fun pf hpf => hb pf ((process_close_file_loop_sublist cfg fd s.file_list).subset hpf)⟩
      exact ih _ s1 ds n hstep hn h1

/-- Entries in order of issue carry different descriptors. -/
theorem issued_distinct (c0 : Int) (n : Nat) (s : State) (h : issued c0 n s) :
    List.Pairwise (fun a b : process_file => a.fd ≠ b.fd) s.file_list :=
  h.2.1.imp fun {a b} hlt e => by
    rw [e] at hlt
    exact absurd hlt (lt_irrefl _)

/-! ## The open-file table: a program that opens and closes over and over -/

theorem toI32_idem (z : Int) : toI32 (toI32 z) = toI32 z := by
  unfold toI32; omega

/-- Closing the descriptor of the entry added last, when no earlier entry
carries it, removes that entry. -/
theorem process_close_file_loop_last (cfg : Config) (c : Int) (f : Nat)
    (hc : c ≠ cfg.CLOSE_ALL) : ∀ (l : List process_file), (∀ pf ∈ l, pf.fd ≠ c) →
      process_close_file_loop cfg c (l ++ [{ file := f, fd := c }]) =
        (l, [Event.file_close f, Event.free_process_file { file := f, fd := c }]) := by
  intro l
  induction l with
  | nil => intro _; simp [process_close_file_loop, hc]
  | cons pf l ih =>
    intro h
    have h1 : c ≠ pf.fd := fun e => h pf (List.mem_cons_self _ _) e.symm
    have h2 := ih fun q hq => h q (List.mem_cons_of_mem _ hq)
    simp [process_close_file_loop, h1, hc, h2]

/-- One round of the program: `process_add_file (f)` returns the counter `c`
and `process_close_file (c)` removes the entry again. -/
theorem run_file_ops_add_close (cfg : Config) (f : Nat) (c : Int) (ops : List FileOp)
    (s s1 : State) (ds : List Int) (hfd : s.fd = c) (hc : c ≠ cfg.CLOSE_ALL)
    (habs : ∀ pf ∈ s.file_list, pf.fd ≠ c)
    (hrun : run_file_ops cfg ops
        { s with fd := toI32 (c + 1),
                 trace := s.trace ++ [Event.file_close f,
                   Event.free_process_file { file := f, fd := c }] } =
        Outcome.ret ds s1) :
    run_file_ops cfg (FileOp.add f :: FileOp.close c :: ops) s = Outcome.ret (c :: ds) s1 := by
  subst hfd
  apply run_file_ops_add_intro
  apply run_file_ops_close_intro
  simp only [process_close_file_loop_last cfg s.fd f hc s.file_list habs]
  exact hrun

/-- The program of `open_close_ops` runs to its end, advances the counter by
`n` and leaves the file list as it found it, provided none of the
descriptors it is given is `CLOSE_ALL` or is carried by an entry already in
the list. -/
theorem open_close_ops_run (cfg : Config) (f : Nat) : ∀ (n : Nat) (s : State) (c : Int),
    s.fd = c → toI32 c = c →
    (∀ i : Nat, i < n → toI32 (c + (i : Int)) ≠ cfg.CLOSE_ALL ∧
      ∀ pf ∈ s.file_list, pf.fd ≠ toI32 (c + (i : Int))) →
    ∃ ds s1, run_file_ops cfg (open_close_ops f c n) s = Outcome.ret ds s1 ∧
      s1.fd = toI32 (c + (n : Int)) ∧ s1.file_list = s.file_list ∧ ds.length = n := by
  intro n
  induction n with
  | zero =>
    intro s c hfd hc _
    exact ⟨[], s, rfl, by simpa [hc] using hfd, rfl, rfl⟩
  | succ n ih =>
    intro s c hfd hc hcond
    have h0 := hcond 0 (Nat.succ_pos n)
    simp only [Nat.cast_zero, add_zero, hc] at h0
    obtain ⟨ds, s1, hrun, hfd1, hl1, hlen⟩ :=
      ih { s with fd := toI32 (c + 1),
                  trace := s.trace ++ [Event.file_close f,
                    Event.free_process_file { file := f, fd := c }] }
        (toI32 (c + 1)) rfl (toI32_idem _) (by
          intro i hi
          have := hcond (i + 1) (by omega)
          rw [toI32_add_succ]
          exact this)
    refine ⟨c :: ds, s1, ?_, ?_, hl1, by simp [hlen]⟩
    · exact run_file_ops_add_close cfg f c _ s s1 ds hfd h0.1 h0.2 hrun
    · rw [hfd1, toI32_add_succ]

/-! ## Descriptors are issued in increasing order (C7) -/

/-- C7, as stated, fails once the counter has passed `INT_MAX`: a process
whose counter starts at 2 opens and closes a file `2 ^ 31 - 2` times, being
returned the descriptors 2 up to `2 ^ 31 - 1`, and opens once more; the last
descriptor returned is `-2 ^ 31`, below the first one. -/
theorem descriptors_not_increasing_after_overflow :
    (state0 (fun _ => 0) 0).fd = 2 ∧
    ∃ ds s1,
      run_file_ops stock
          (FileOp.add 7 :: FileOp.close 2 ::
            (open_close_ops 7 3 2147483645 ++ [FileOp.add 7]))
          (state0 (fun _ => 0) 0) = Outcome.ret ds s1 ∧
      ds.head? = some 2 ∧ ds.getLast? = some (-2147483648) ∧
      ¬ List.Pairwise (fun a b : Int => a < b) ds := by
  refine ⟨rfl, ?_⟩
  obtain ⟨ds1, s1, h1, hfd1, _, _⟩ :=
    open_close_ops_run stock 7 2147483645
      { state0 (fun _ => 0) 0 with
        fd := toI32 (2 + 1)
        trace := (state0 (fun _ => 0) 0).trace ++ [Event.file_close 7,
          Event.free_process_file { file := 7, fd := 2 }] }
      3 (by decide) (by decide) (by
        intro i hi
        refine ⟨?_, ?_⟩
        · show toI32 (3 + (i : Int)) ≠ -1
          unfold toI32; omega
        · intro pf hpf
          exact absurd hpf (List.not_mem_nil pf))
  have hlast : s1.fd = -2147483648 := by
    rw [hfd1]; unfold toI32; omega
  have h2 : run_file_ops stock [FileOp.add 7] s1 =
      Outcome.ret [s1.fd]
        { s1 with fd := toI32 (s1.fd + 1),
                  file_list := s1.file_list ++ [{ file := 7, fd := s1.fd }] } := rfl
  have h3 := run_file_ops_append stock _ _ _ _ _ _ _ h1 h2
  have h4 := run_file_ops_add_close stock 7 2 _ (state0 (fun _ => 0) 0) _ _ rfl
    (by decide) (fun pf hpf => absurd hpf (List.not_mem_nil pf)) h3
  refine ⟨_, _, h4, rfl, ?_, ?_⟩
  · rw [← hlast]; exact List.getLast?_concat (2 :: ds1)
  · intro hp
    have := (List.pairwise_cons.mp hp).1 s1.fd (by simp)
    rw [hlast] at this
    omega

/-- C7, amended: for a process whose descriptor counter starts at 2 and a
sequence of `process_add_file` and `process_close_file` calls of which at
most `2 ^ 31 - 2` are `process_add_file` calls, every call returns, and the
descriptors returned by the `process_add_file` calls are strictly increasing
in call order; so none is returned twice, closed in between or not, and none
is 0 or 1. -/
theorem descriptors_strictly_increasing (cfg : Config) (ops : List FileOp) (s : State)
    (hstart : s.fd = 2) (hn : count_adds ops ≤ 2147483646) :
    ∃ ds s1, run_file_ops cfg ops s = Outcome.ret ds s1 ∧
      ds.length = count_adds ops ∧
      List.Pairwise (fun a b : Int => a < b) ds ∧
      ds.Nodup ∧
      ∀ d ∈ ds, d ≠ 0 ∧ d ≠ 1 := by
  obtain ⟨ds, s1, hrun, hlen, hpw, hb⟩ :=
    run_file_ops_increasing cfg ops s (by omega) (by omega)
  refine ⟨ds, s1, hrun, hlen, hpw, hpw.imp fun {a b} hlt => ne_of_lt hlt, ?_⟩
  intro d hd
  have := (hb d hd).1
  omega

/-- C7, amended, at three opens with a close in between. -/
theorem descriptors_strictly_increasing_witness :
    (state0 (fun _ => 0) 0).fd = 2 ∧
    count_adds [FileOp.add 5, FileOp.close 2, FileOp.add 6, FileOp.add 7] ≤ 2147483646 ∧
    ∃ ds s1,
      run_file_ops stock [FileOp.add 5, FileOp.close 2, FileOp.add 6, FileOp.add 7]
        (state0 (fun _ => 0) 0) = Outcome.ret ds s1 ∧
      ds.length = count_adds [FileOp.add 5, FileOp.close 2, FileOp.add 6, FileOp.add 7] ∧
      List.Pairwise (fun a b : Int => a < b) ds ∧
      ds.Nodup ∧
      ∀ d ∈ ds, d ≠ 0 ∧ d ≠ 1 :=
  ⟨rfl, by decide,
    descriptors_strictly_increasing stock
      [FileOp.add 5, FileOp.close 2, FileOp.add 6, FileOp.add 7]
      (state0 (fun _ => 0) 0) rfl (by decide)⟩

/-! ## The invariant of the file table (C8) -/

/-- C8, as stated, fails for `process_add_file` at the counter `INT_MAX`:
after `2 ^ 31 - 3` rounds of open and close from the counter 2, the table is
empty with counter `2 ^ 31 - 1` and satisfies the invariant; the next
`process_add_file` leaves an entry with descriptor `2 ^ 31 - 1` and the
counter `-2 ^ 31`, which is not above it. -/
theorem file_table_inv_broken_at_int_max :
    ∃ ds s, run_file_ops stock (open_close_ops 7 2 2147483645) (state0 (fun _ => 0) 0) =
        Outcome.ret ds s ∧
      s.fd = 2147483647 ∧ file_table_inv s ∧
      ∃ d s1, process_add_file 7 s = Outcome.ret d s1 ∧ ¬ file_table_inv s1 := by
  obtain ⟨ds, s, h1, hfd, hl, _⟩ :=
    open_close_ops_run stock 7 2147483645 (state0 (fun _ => 0) 0) 2 rfl (by decide) (by
      intro i hi
      refine ⟨?_, ?_⟩
      · show toI32 (2 + (i : Int)) ≠ -1
        unfold toI32; omega
      · intro pf hpf
        exact absurd hpf (List.not_mem_nil pf))
  have hmax : s.fd = 2147483647 := by
    rw [hfd]; unfold toI32; omega
  have hnil : s.file_list = [] := hl
  refine ⟨ds, s, h1, hmax, ?_, s.fd, _, process_add_file_eq 7 s, ?_⟩
  · refine ⟨?_, ?_⟩
    · rw [hnil]; exact List.Pairwise.nil
    · rw [hnil]; intro pf hpf; exact absurd hpf (List.not_mem_nil pf)
  · intro hinv
    have h := hinv.2 { file := 7, fd := s.fd } (by
      show _ ∈ s.file_list ++ [_]
      simp)
    have h5 : s.fd < toI32 (s.fd + 1) := h
    rw [hmax] at h5
    unfold toI32 at h5
    omega

/-- C8, amended: the invariant (no two entries with the same descriptor,
every descriptor in the list below the counter) holds for every state with
an empty file list; `process_add_file` preserves it whenever the counter, an
`int`, is below `INT_MAX`; `process_close_file (fd)` preserves it for every
`fd`, `CLOSE_ALL` included. -/
theorem file_table_inv_preserved (cfg : Config) :
    (∀ s : State, s.file_list = [] → file_table_inv s) ∧
    (∀ (s : State) (f : Nat), file_table_inv s → -2147483648 ≤ s.fd → s.fd < 2147483647 →
      ∃ d s1, process_add_file f s = Outcome.ret d s1 ∧ file_table_inv s1) ∧
    (∀ (s : State) (fd : Int), file_table_inv s →
      ∃ s1, process_close_file cfg fd s = Outcome.ret () s1 ∧ file_table_inv s1) := by
  refine ⟨?_, ?_, ?_⟩
  · intro s h
    refine ⟨?_, ?_⟩
    · rw [h]; exact List.Pairwise.nil
    · rw [h]; intro pf hpf; exact absurd hpf (List.not_mem_nil pf)
  · intro s f hinv hlo hhi
    refine ⟨s.fd, _, process_add_file_eq f s, ?_, ?_⟩
    · show List.Pairwise _ (s.file_list ++ [{ file := f, fd := s.fd }])
      rw [List.pairwise_append]
      refine ⟨hinv.1, List.pairwise_singleton _ _, ?_⟩
      intro a ha b hb
      rw [List.mem_singleton] at hb
      subst hb
      exact ne_of_lt (hinv.2 a ha)
    · intro pf hpf
      have hpf2 : pf ∈ s.file_list ++ [{ file := f, fd := s.fd }] := hpf
      show pf.fd < toI32 (s.fd + 1)
      have hid : toI32 (s.fd + 1) = s.fd + 1 := by unfold toI32; omega
      rw [hid]
      rcases List.mem_append.mp hpf2 with h | h
      · have := hinv.2 pf h
        omega
      · rw [List.mem_singleton] at h
        subst h
        show s.fd < s.fd + 1
        omega
  · intro s fd hinv
    refine ⟨_, process_close_file_eq cfg fd s, ?_, ?_⟩
    · exact hinv.1.sublist (process_close_file_loop_sublist cfg fd s.file_list)
    · intro pf hpf
      exact hinv.2 pf ((process_close_file_loop_sublist cfg fd s.file_list).subset hpf)

/-- C8, amended, at the empty table with counter 2: the invariant holds, and
holds again after a `process_add_file`. -/
theorem file_table_inv_preserved_witness :
    file_table_inv (state0 (fun _ => 0) 0) ∧
    ∃ d s1, process_add_file 5 (state0 (fun _ => 0) 0) = Outcome.ret d s1 ∧
      file_table_inv s1 :=
  ⟨(file_table_inv_preserved stock).1 _ rfl,
    (file_table_inv_preserved stock).2.1 _ 5 ((file_table_inv_preserved stock).1 _ rfl)
      (by decide) (by decide)⟩

/-! ## Lookup after close and after add (C9, C10) -/

/-- A long-running process: `process_add_file (5)` returns 2 and the file
stays open; `2 ^ 32 - 4` rounds of open and close then use up the
descriptors 3 up to `-2`.  The counter has become `-1`, the list holds the
one entry with descriptor 2, and the calls of `tail` follow from there. -/
theorem run_after_wraparound (tail : List FileOp) :
    ∃ ds1 s1, s1.fd = -1 ∧ s1.file_list = [{ file := 5, fd := 2 }] ∧
      ∀ ds2 s2, run_file_ops stock tail s1 = Outcome.ret ds2 s2 →
        run_file_ops stock (FileOp.add 5 :: (open_close_ops 7 3 4294967292 ++ tail))
          (state0 (fun _ => 0) 0) = Outcome.ret (2 :: (ds1 ++ ds2)) s2 := by
  obtain ⟨ds1, s1, h1, hfd, hl, _⟩ :=
    open_close_ops_run stock 7 4294967292
      { state0 (fun _ => 0) 0 with
        fd := toI32 (2 + 1)
        file_list := [] ++ [{ file := 5, fd := 2 }] }
      3 (by decide) (by decide) (by
        intro i hi
        refine ⟨?_, ?_⟩
        · show toI32 (3 + (i : Int)) ≠ -1
          unfold toI32; omega
        · intro pf hpf
          have hpf2 : pf ∈ [({ file := 5, fd := 2 } : process_file)] := hpf
          rw [List.mem_singleton] at hpf2
          subst hpf2
          show (2 : Int) ≠ toI32 (3 + (i : Int))
          unfold toI32; omega)
  refine ⟨ds1, s1, ?_, hl, ?_⟩
  · rw [hfd]; unfold toI32; omega
  · intro ds2 s2 h2
    exact run_file_ops_add_intro stock 5 _ (state0 (fun _ => 0) 0) s2 (ds1 ++ ds2)
      (run_file_ops_append stock _ _ _ _ _ _ _ h1 h2)

/-- C9, as stated, fails in two ways.  With `fd = CLOSE_ALL` the close
removes every entry, so the lookup of another descriptor changes: after two
opens, `process_close_file (-1)` turns the handle found for descriptor 2
from 5 into `NULL`.  And once `2 ^ 32` descriptors have been issued the
counter comes back to a descriptor that is still open: the table then holds
two entries with descriptor 2, `process_close_file (2)` removes the first,
and `process_get_file (2)` finds the second, handle 9. -/
theorem get_after_close_fails :
    (∃ ds s s1, run_file_ops stock [FileOp.add 5, FileOp.add 6] (state0 (fun _ => 0) 0) =
        Outcome.ret ds s ∧
      process_close_file stock stock.CLOSE_ALL s = Outcome.ret () s1 ∧
      (2 : Int) ≠ stock.CLOSE_ALL ∧
      process_get_file 2 s = 5 ∧ process_get_file 2 s1 = 0) ∧
    (∃ ds s s1,
      run_file_ops stock
        (FileOp.add 5 :: (open_close_ops 7 3 4294967292 ++
          [FileOp.add 7, FileOp.add 7, FileOp.add 7, FileOp.add 9]))
        (state0 (fun _ => 0) 0) = Outcome.ret ds s ∧
      (state0 (fun _ => 0) 0).file_list = [] ∧
      (2 : Int) ≠ stock.CLOSE_ALL ∧
      process_close_file stock 2 s = Outcome.ret () s1 ∧
      process_get_file 2 s1 = 9) := by
  refine ⟨⟨_, _, _, rfl, rfl, by decide, rfl, rfl⟩, ?_⟩
  obtain ⟨ds1, s1, hm1, hl1, hrun⟩ :=
    run_after_wraparound [FileOp.add 7, FileOp.add 7, FileOp.add 7, FileOp.add 9]
  have key : ∃ ds2 s2,
      run_file_ops stock [FileOp.add 7, FileOp.add 7, FileOp.add 7, FileOp.add 9] s1 =
        Outcome.ret ds2 s2 ∧
      s2.file_list = [{ file := 5, fd := 2 }, { file := 7, fd := -1 }, { file := 7, fd := 0 },
        { file := 7, fd := 1 }, { file := 9, fd := 2 }] := by
    refine ⟨_, _, rfl, ?_⟩
    show s1.file_list ++ [{ file := 7, fd := s1.fd }]
        ++ [{ file := 7, fd := toI32 (s1.fd + 1) }]
        ++ [{ file := 7, fd := toI32 (toI32 (s1.fd + 1) + 1) }]
        ++ [{ file := 9, fd := toI32 (toI32 (toI32 (s1.fd + 1) + 1) + 1) }] = _
    rw [hl1, hm1]
    decide
  obtain ⟨ds2, s2, h2, hl2⟩ := key
  refine ⟨_, s2, _, hrun ds2 s2 h2, rfl, by decide, process_close_file_eq stock 2 s2, ?_⟩
  show process_get_file_loop 2 (process_close_file_loop stock 2 s2.file_list).1 = 9
  rw [hl2]
  decide

/-- C9, amended: for a file table reached from an empty one by a sequence of
calls that issued at most `2 ^ 32` descriptors, and a descriptor `fd` other
than `CLOSE_ALL`, `process_close_file (fd)` returns, `process_get_file (fd)`
is `NULL` afterwards, and `process_get_file (d)` is what it was for every
other `d`. -/
theorem get_after_close (cfg : Config) (s0 s : State) (ops : List FileOp) (ds : List Int)
    (fd : Int) (h0 : s0.file_list = [])
    (hrun : run_file_ops cfg ops s0 = Outcome.ret ds s)
    (hn : count_adds ops ≤ 4294967296) (hfd : fd ≠ cfg.CLOSE_ALL) :
    ∃ s1, process_close_file cfg fd s = Outcome.ret () s1 ∧
      process_get_file fd s1 = 0 ∧
      ∀ d, d ≠ fd → process_get_file d s1 = process_get_file d s := by
  have hi := issued_run cfg s0.fd ops s0 s ds 0 (issued_init s0 h0) (by omega) hrun
  have hd := issued_distinct _ _ s hi
  refine ⟨_, process_close_file_eq cfg fd s, ?_, ?_⟩
  · exact process_close_file_loop_get_self cfg fd hfd s.file_list hd
  · intro d hne
    exact process_close_file_loop_get_other cfg fd d hfd hne s.file_list

/-- C9, amended, at the table with descriptors 2 and 3 and `fd = 2`. -/
theorem get_after_close_witness :
    (state0 (fun _ => 0) 0).file_list = [] ∧
    run_file_ops stock [FileOp.add 5, FileOp.add 6] (state0 (fun _ => 0) 0) =
      Outcome.ret [2, 3] (state_files [{ file := 5, fd := 2 }, { file := 6, fd := 3 }] 4) ∧
    count_adds [FileOp.add 5, FileOp.add 6] ≤ 4294967296 ∧
    (2 : Int) ≠ stock.CLOSE_ALL ∧
    process_get_file 2 (state_files [{ file := 5, fd := 2 }, { file := 6, fd := 3 }] 4) = 5 ∧
    ∃ s1, process_close_file stock 2
        (state_files [{ file := 5, fd := 2 }, { file := 6, fd := 3 }] 4) =
        Outcome.ret () s1 ∧
      process_get_file 2 s1 = 0 ∧
      ∀ d, d ≠ 2 → process_get_file d s1 =
        process_get_file d (state_files [{ file := 5, fd := 2 }, { file := 6, fd := 3 }] 4) :=
  ⟨rfl, rfl, by decide, by decide, rfl,
    get_after_close stock (state0 (fun _ => 0) 0)
      (state_files [{ file := 5, fd := 2 }, { file := 6, fd := 3 }] 4)
      [FileOp.add 5, FileOp.add 6] [2, 3] 2 rfl rfl (by decide) (by decide)⟩

/-- C10, as stated, fails once `2 ^ 32` descriptors have been issued: the
counter is back at 2 while the entry that was given descriptor 2 first,
handle 5, is still open, so `process_add_file (9)` returns 2 and
`process_get_file (2)` right after it returns 5, not 9. -/
theorem get_after_add_fails :
    ∃ ds s,
      run_file_ops stock
        (FileOp.add 5 :: (open_close_ops 7 3 4294967292 ++
          [FileOp.add 7, FileOp.add 7, FileOp.add 7]))
        (state0 (fun _ => 0) 0) = Outcome.ret ds s ∧
      (state0 (fun _ => 0) 0).file_list = [] ∧
      ∃ d s1, process_add_file 9 s = Outcome.ret d s1 ∧ d = 2 ∧
        process_get_file d s1 = 5 := by
  obtain ⟨ds1, s1, hm1, hl1, hrun⟩ :=
    run_after_wraparound [FileOp.add 7, FileOp.add 7, FileOp.add 7]
  have key : ∃ ds2 s2,
      run_file_ops stock [FileOp.add 7, FileOp.add 7, FileOp.add 7] s1 =
        Outcome.ret ds2 s2 ∧
      s2.fd = 2 ∧
      s2.file_list = [{ file := 5, fd := 2 }, { file := 7, fd := -1 }, { file := 7, fd := 0 },
        { file := 7, fd := 1 }] := by
    refine ⟨_, _, rfl, ?_, ?_⟩
    · show toI32 (toI32 (toI32 (s1.fd + 1) + 1) + 1) = 2
      rw [hm1]
      decide
    · show s1.file_list ++ [{ file := 7, fd := s1.fd }]
          ++ [{ file := 7, fd := toI32 (s1.fd + 1) }]
          ++ [{ file := 7, fd := toI32 (toI32 (s1.fd + 1) + 1) }] = _
      rw [hl1, hm1]
      decide
  obtain ⟨ds2, s2, h2, hfd2, hl2⟩ := key
  refine ⟨_, s2, hrun ds2 s2 h2, rfl, s2.fd, _, process_add_file_eq 9 s2, hfd2, ?_⟩
  show process_get_file_loop s2.fd (s2.file_list ++ [{ file := 9, fd := s2.fd }]) = 5
  rw [hl2, hfd2]
  decide

/-- C10, amended: for a file table reached from an empty one by a sequence
of calls that issued fewer than `2 ^ 32` descriptors, and a file handle `h`,
`process_add_file (h)` returns a descriptor `d`, `process_get_file (d)`
right afterwards is `h`, and `process_get_file (e)` is what it was before
for every other descriptor `e`. -/
theorem get_after_add (cfg : Config) (s0 s : State) (ops : List FileOp) (ds : List Int)
    (h : Nat) (h0 : s0.file_list = [])
    (hrun : run_file_ops cfg ops s0 = Outcome.ret ds s)
    (hn : count_adds ops < 4294967296) :
    ∃ d s1, process_add_file h s = Outcome.ret d s1 ∧
      process_get_file d s1 = h ∧
      ∀ e, e ≠ d → process_get_file e s1 = process_get_file e s := by
  obtain ⟨hc, _, hb⟩ :=
    issued_run cfg s0.fd ops s0 s ds 0 (issued_init s0 h0) (by omega) hrun
  have habs : ∀ pf ∈ s.file_list, pf.fd ≠ s.fd := by
    intro pf hpf e
    have h1 := hb pf hpf
    rw [e] at h1
    unfold slot at h1
    omega
  refine ⟨s.fd, _, process_add_file_eq h s, ?_, ?_⟩
  · show process_get_file_loop s.fd (s.file_list ++ [{ file := h, fd := s.fd }]) = h
    rw [process_get_file_loop_append_absent s.fd _ s.file_list habs]
    simp [process_get_file_loop]
  · intro e hne
    exact process_get_file_loop_append_other e s.fd h hne s.file_list

/-- C10, amended, at the table with descriptor 2 and a second open. -/
theorem get_after_add_witness :
    (state0 (fun _ => 0) 0).file_list = [] ∧
    run_file_ops stock [FileOp.add 5] (state0 (fun _ => 0) 0) =
      Outcome.ret [2] (state_files [{ file := 5, fd := 2 }] 3) ∧
    count_adds [FileOp.add 5] < 4294967296 ∧
    ∃ d s1, process_add_file 6 (state_files [{ file := 5, fd := 2 }] 3) = Outcome.ret d s1 ∧
      process_get_file d s1 = 6 ∧
      ∀ e, e ≠ d → process_get_file e s1 =
        process_get_file e (state_files [{ file := 5, fd := 2 }] 3) :=
  ⟨rfl, rfl, by decide,
    get_after_add stock (state0 (fun _ => 0) 0) (state_files [{ file := 5, fd := 2 }] 3)
      [FileOp.add 5] [2] 6 rfl rfl (by decide)⟩

/-! ## What `process_close_file` removes and closes -/

theorem closed_handles_append (a b : List Event) :
    closed_handles (a ++ b) = closed_handles a ++ closed_handles b := by
  induction a with
  | nil => rfl
  | cons e a ih => cases e <;> simp [closed_handles, ih]

/-- The state `close (fd)` returns in. -/
theorem close_eq (cfg : Config) (fd : Int) (s : State) :
    close cfg fd s =
      Outcome.ret ()
        { s with lock_held := false,
                 file_list := (process_close_file_loop cfg fd s.file_list).1,
                 trace := s.trace ++ [Event.lock_acquire] ++
                   (process_close_file_loop cfg fd s.file_list).2 ++ [Event.lock_release] } :=
  rfl

/-- With `CLOSE_ALL` the loop removes every entry, closing and freeing each
in list order. -/
theorem process_close_file_loop_all (cfg : Config) : ∀ (l : List process_file),
    process_close_file_loop cfg cfg.CLOSE_ALL l =
      ([], l.flatMap fun pf => [Event.file_close pf.file, Event.free_process_file pf]) := by
  intro l
  induction l with
  | nil => rfl
  | cons pf l ih => simp [process_close_file_loop, ih]

/-- Without an entry for `fd` the loop does nothing. -/
theorem process_close_file_loop_absent (cfg : Config) (fd : Int) (hfd : fd ≠ cfg.CLOSE_ALL) :
    ∀ (l : List process_file), (∀ pf ∈ l, pf.fd ≠ fd) →
      process_close_file_loop cfg fd l = (l, []) := by
  intro l
  induction l with
  | nil => intro _; rfl
  | cons pf l ih =>
    intro h
    have h1 : fd ≠ pf.fd := fun e => h pf (List.mem_cons_self _ _) e.symm
    have h2 := ih fun q hq => h q (List.mem_cons_of_mem _ hq)
    simp [process_close_file_loop, h1, hfd, h2]

/-- With an entry for `fd` the loop removes the first one, and only it. -/
theorem process_close_file_loop_present (cfg : Config) (fd : Int) (hfd : fd ≠ cfg.CLOSE_ALL) :
    ∀ (l : List process_file), (∃ pf ∈ l, pf.fd = fd) →
      ∃ l1 pf l2, l = l1 ++ pf :: l2 ∧ pf.fd = fd ∧ (∀ q ∈ l1, q.fd ≠ fd) ∧
        process_close_file_loop cfg fd l =
          (l1 ++ l2, [Event.file_close pf.file, Event.free_process_file pf]) := by
  intro l
  induction l with
  | nil =>
    rintro ⟨pf, hpf, _⟩
    exact absurd hpf (List.not_mem_nil pf)
  | cons a l ih =>
    rintro ⟨pf, hpf, hfdpf⟩
    by_cases h1 : fd = a.fd
    · refine ⟨[], a, l, rfl, h1.symm, fun q hq => absurd hq (List.not_mem_nil q), ?_⟩
      simp [process_close_file_loop, h1, h1 ▸ hfd]
    · have hin : ∃ pf ∈ l, pf.fd = fd := by
        rcases List.mem_cons.mp hpf with rfl | hpf
        · exact absurd hfdpf.symm h1
        · exact ⟨pf, hpf, hfdpf⟩
      obtain ⟨l1, q, l2, hl, hq, hl1, hloop⟩ := ih hin
      refine ⟨a :: l1, q, l2, by rw [hl]; rfl, hq, ?_, ?_⟩
      · intro r hr
        rcases List.mem_cons.mp hr with rfl | hr
        · exact fun e => h1 e.symm
        · exact hl1 r hr
      · simp [process_close_file_loop, h1, hfd, hloop]

/-- The handles closed by a `CLOSE_ALL` pass are those of the entries, in
list order. -/
theorem closed_handles_close_all : ∀ (l : List process_file),
    closed_handles
      (l.flatMap fun pf => [Event.file_close pf.file, Event.free_process_file pf]) =
    l.map fun pf => pf.file := by
  intro l
  induction l with
  | nil => rfl
  | cons pf l ih =>
    show closed_handles (Event.file_close pf.file :: Event.free_process_file pf ::
        (l.flatMap fun pf => [Event.file_close pf.file, Event.free_process_file pf])) =
      pf.file :: l.map fun pf => pf.file
    simp only [closed_handles, ih]

/-- On a table with one entry per descriptor, a second pass for the same
`fd` finds nothing to remove. -/
theorem process_close_file_loop_again (cfg : Config) (fd : Int) (l : List process_file)
    (hinv : List.Pairwise (fun a b : process_file => a.fd ≠ b.fd) l) :
    process_close_file_loop cfg fd (process_close_file_loop cfg fd l).1 =
      ((process_close_file_loop cfg fd l).1, []) := by
  by_cases hfd : fd = cfg.CLOSE_ALL
  · subst hfd
    simp [process_close_file_loop_all, process_close_file_loop]
  · by_cases hex : ∃ pf ∈ l, pf.fd = fd
    · obtain ⟨l1, pf, l2, hl, hpf, hl1, hloop⟩ :=
        process_close_file_loop_present cfg fd hfd l hex
      rw [hloop]
      apply process_close_file_loop_absent cfg fd hfd
      intro q hq
      rw [hl, List.pairwise_append] at hinv
      rcases List.mem_append.mp hq with h | h
      · exact hl1 q h
      · have := (List.pairwise_cons.mp hinv.2.1).1 q h
        rw [hpf] at this
        exact fun e => this e.symm
    · have habs : ∀ pf ∈ l, pf.fd ≠ fd := fun pf hpf e => hex ⟨pf, hpf, e⟩
      rw [process_close_file_loop_absent cfg fd hfd l habs]
      exact process_close_file_loop_absent cfg fd hfd l habs

/-- On a table with one entry per descriptor, the pass for `fd` closes the
handle of the entry that carries `fd`, and nothing else. -/
theorem process_close_file_loop_unique (cfg : Config) (fd : Int) (hfd : fd ≠ cfg.CLOSE_ALL)
    (l : List process_file)
    (hinv : List.Pairwise (fun a b : process_file => a.fd ≠ b.fd) l)
    (pf : process_file) (hpf : pf ∈ l) (hpfd : pf.fd = fd) :
    (process_close_file_loop cfg fd l).2 =
      [Event.file_close pf.file, Event.free_process_file pf] := by
  obtain ⟨l1, q, l2, hl, hq, hl1, hloop⟩ :=
    process_close_file_loop_present cfg fd hfd l ⟨pf, hpf, hpfd⟩
  have hpq : pf = q := by
    rw [hl] at hpf hinv
    rw [List.pairwise_append] at hinv
    rcases List.mem_append.mp hpf with h | h
    · exact absurd hpfd (hl1 pf h)
    · rcases List.mem_cons.mp h with h | h
      · exact h
      · have := (List.pairwise_cons.mp hinv.2.1).1 pf h
        rw [hq, hpfd] at this
        exact absurd rfl this
  rw [hloop, hpq]

/-! ## The `close` system call (C11, C12, C13) -/

/-- C11, as stated, fails when the user passes `CLOSE_ALL`: a process with
open descriptors 2 and 3 traps with system-call number `SYS_CLOSE` and the
argument word `0xffffffff`, that is `fd = -1`.  No entry has descriptor
`-1`, yet the call is not a no-op: both entries are removed and `file_close`
is called on both handles. -/
theorem user_close_closes_all :
    (∀ pf ∈ (state_trap mem_close_all
        [{ file := 5, fd := 2 }, { file := 6, fd := 3 }] 4).file_list,
      pf.fd ≠ toI32 4294967295) ∧
    toI32 4294967295 = stock.CLOSE_ALL ∧
    syscall_handler stock env0
        (state_trap mem_close_all [{ file := 5, fd := 2 }, { file := 6, fd := 3 }] 4) =
      Outcome.ret ()
        { state_trap mem_close_all [{ file := 5, fd := 2 }, { file := 6, fd := 3 }] 4 with
          file_list := []
          trace := [Event.load32 134512640, Event.load32 134512644, Event.lock_acquire,
            Event.file_close 5, Event.free_process_file { file := 5, fd := 2 },
            Event.file_close 6, Event.free_process_file { file := 6, fd := 3 },
            Event.lock_release] } :=
  ⟨by decide, by decide, rfl⟩

/-- C11, amended: `close (fd)` returns.  For `fd` other than `CLOSE_ALL`: if
no entry has descriptor `fd` the table is unchanged and nothing but the lock
is touched; otherwise exactly one entry is removed, the first whose
descriptor is `fd` (the only one when descriptors are distinct), its handle
is closed, it is freed, and the entries before and after it stay in place.
For `fd = CLOSE_ALL`, whoever issues the call, every entry is removed and
every handle is closed. -/
theorem close_contract (cfg : Config) (s : State) (fd : Int) :
    ∃ s1, close cfg fd s = Outcome.ret () s1 ∧
      (fd ≠ cfg.CLOSE_ALL → (∀ pf ∈ s.file_list, pf.fd ≠ fd) →
        s1.file_list = s.file_list ∧
        s1.trace = s.trace ++ [Event.lock_acquire, Event.lock_release]) ∧
      (fd ≠ cfg.CLOSE_ALL → (∃ pf ∈ s.file_list, pf.fd = fd) →
        ∃ l1 pf l2, s.file_list = l1 ++ pf :: l2 ∧ pf.fd = fd ∧ (∀ q ∈ l1, q.fd ≠ fd) ∧
          s1.file_list = l1 ++ l2 ∧
          s1.trace = s.trace ++ [Event.lock_acquire, Event.file_close pf.file,
            Event.free_process_file pf, Event.lock_release]) ∧
      (fd = cfg.CLOSE_ALL →
        s1.file_list = [] ∧
        closed_handles s1.trace =
          closed_handles s.trace ++ s.file_list.map fun pf => pf.file) := by
  refine ⟨_, close_eq cfg fd s, ?_, ?_, ?_⟩
  · intro hfd habs
    simp [process_close_file_loop_absent cfg fd hfd s.file_list habs]
  · intro hfd hex
    obtain ⟨l1, pf, l2, hl, hpf, hl1, hloop⟩ :=
      process_close_file_loop_present cfg fd hfd s.file_list hex
    exact ⟨l1, pf, l2, hl, hpf, hl1, by simp [hloop], by simp [hloop]⟩
  · intro hfd
    subst hfd
    refine ⟨by simp [process_close_file_loop_all], ?_⟩
    simp only [process_close_file_loop_all, closed_handles_append]
    simp [closed_handles_close_all, closed_handles]

/-- C11, amended, at the table with descriptors 2 and 3: `close (3)` removes
the entry of descriptor 3, `close (9)` changes nothing. -/
theorem close_contract_witness :
    (∃ s1, close stock 3 (state_files [{ file := 5, fd := 2 }, { file := 6, fd := 3 }] 4) =
        Outcome.ret () s1 ∧
      s1.file_list = [{ file := 5, fd := 2 }] ∧
      closed_handles s1.trace = [6]) ∧
    (∃ s1, close stock 9 (state_files [{ file := 5, fd := 2 }, { file := 6, fd := 3 }] 4) =
        Outcome.ret () s1 ∧
      s1.file_list = [{ file := 5, fd := 2 }, { file := 6, fd := 3 }] ∧
      s1.trace = [Event.lock_acquire, Event.lock_release]) := by
  constructor
  · obtain ⟨s1, h1, _, _, _⟩ :=
      close_contract stock (state_files [{ file := 5, fd := 2 }, { file := 6, fd := 3 }] 4) 3
    exact ⟨s1, h1, by
      rw [close_eq] at h1
      injection h1 with _ h1
      subst h1
      exact ⟨rfl, rfl⟩⟩
  · obtain ⟨s1, h1, h2, _, _⟩ :=
      close_contract stock (state_files [{ file := 5, fd := 2 }, { file := 6, fd := 3 }] 4) 9
    exact ⟨s1, h1, h2 (by decide) (by decide)⟩

/-- C12: on a file table with one entry per descriptor, for every `fd`
(`CLOSE_ALL` included), `close (fd)` called twice returns twice; the second
call leaves the table the first call left, touches only the lock, and calls
`file_close` on nothing; when an entry carried `fd` (other than
`CLOSE_ALL`), its handle is closed once over the two calls and no other
handle is closed. -/
theorem close_twice (cfg : Config) (s : State) (fd : Int)
    (hinv : List.Pairwise (fun a b : process_file => a.fd ≠ b.fd) s.file_list) :
    ∃ s1 s2, close cfg fd s = Outcome.ret () s1 ∧ close cfg fd s1 = Outcome.ret () s2 ∧
      s2.file_list = s1.file_list ∧
      s2.trace = s1.trace ++ [Event.lock_acquire, Event.lock_release] ∧
      closed_handles s2.trace = closed_handles s1.trace ∧
      (∀ pf ∈ s.file_list, pf.fd = fd → fd ≠ cfg.CLOSE_ALL →
        closed_handles s2.trace = closed_handles s.trace ++ [pf.file]) := by
  have hagain := process_close_file_loop_again cfg fd s.file_list hinv
  refine ⟨_, _, close_eq cfg fd s, close_eq cfg fd _, ?_, ?_, ?_, ?_⟩
  · simp [hagain]
  · simp [hagain]
  · simp [hagain, closed_handles_append, closed_handles]
  · intro pf hpf hpfd hfd
    simp [hagain, closed_handles_append, closed_handles,
      process_close_file_loop_unique cfg fd hfd s.file_list hinv pf hpf hpfd]

/-- C12, at the table with descriptors 2 and 3 and `fd = 2`. -/
theorem close_twice_witness :
    List.Pairwise (fun a b : process_file => a.fd ≠ b.fd)
      (state_files [{ file := 5, fd := 2 }, { file := 6, fd := 3 }] 4).file_list ∧
    ∃ s1 s2,
      close stock 2 (state_files [{ file := 5, fd := 2 }, { file := 6, fd := 3 }] 4) =
        Outcome.ret () s1 ∧
      close stock 2 s1 = Outcome.ret () s2 ∧
      s2.file_list = s1.file_list ∧
      s2.trace = s1.trace ++ [Event.lock_acquire, Event.lock_release] ∧
      closed_handles s2.trace = closed_handles s1.trace ∧
      (∀ pf ∈ (state_files [{ file := 5, fd := 2 }, { file := 6, fd := 3 }] 4).file_list,
        pf.fd = 2 → (2 : Int) ≠ stock.CLOSE_ALL →
        closed_handles s2.trace =
          closed_handles (state_files [{ file := 5, fd := 2 }, { file := 6, fd := 3 }] 4).trace
            ++ [pf.file]) :=
  ⟨by decide,
    close_twice stock (state_files [{ file := 5, fd := 2 }, { file := 6, fd := 3 }] 4) 2
      (by decide)⟩

/-- C13: `process_close_file (CLOSE_ALL)` returns with an empty file list;
the calls it made are `file_close` and then `free` for each entry, in list
order, so `file_close` was called once on the handle of each of the entries,
as many times as there were entries, and on nothing else. -/
theorem close_all_contract (cfg : Config) (s : State) :
    ∃ s1, process_close_file cfg cfg.CLOSE_ALL s = Outcome.ret () s1 ∧
      s1.file_list = [] ∧
      s1.trace = s.trace ++
        s.file_list.flatMap (fun pf => [Event.file_close pf.file, Event.free_process_file pf]) ∧
      closed_handles s1.trace = closed_handles s.trace ++ s.file_list.map (fun pf => pf.file) ∧
      (closed_handles
        (s.file_list.flatMap
          fun pf => [Event.file_close pf.file, Event.free_process_file pf])).length =
        s.file_list.length := by
  refine ⟨_, process_close_file_eq cfg cfg.CLOSE_ALL s, ?_, ?_, ?_, ?_⟩
  · simp [process_close_file_loop_all]
  · simp [process_close_file_loop_all]
  · simp [process_close_file_loop_all, closed_handles_append, closed_handles_close_all]
  · simp [closed_handles_close_all]

/-! ## `exit` (C15) -/

/-- C15: `exit (status)` does not return: it ends in the termination of the
caller with `status`.  In the state it ends in, the caller's child record
has `status` written into it when the parent is alive and is untouched when
it is not; either way the records of the caller's own children are
untouched, and the trace has grown by the message `name: exit(status)` and
nothing else. -/
theorem exit_contract (status : Int) (s : State) :
    ∃ s1, (exit status s : Outcome Unit) = Outcome.exited status s1 ∧
      (s.parent_alive = true → s1.cp = { s.cp with status := some status }) ∧
      (s.parent_alive = false → s1.cp = s.cp) ∧
      (s1.cp ≠ s.cp → s.parent_alive = true) ∧
      s1.child_list = s.child_list ∧
      s1.trace = s.trace ++ [Event.printf_exit s.name status] ∧
      s1.file_list = s.file_list ∧ s1.lock_held = s.lock_held := by
  refine ⟨exit_state status s, rfl, ?_, ?_, ?_, ?_, ?_, ?_, ?_⟩ <;>
    (unfold exit_state; cases s.parent_alive <;> simp)

/-! ## Unknown descriptors (C16) -/

/-- C16: when no entry of the file table has descriptor `fd`, `filesize`
returns `ERROR`, `tell` returns `ERROR` (as the `unsigned` it returns),
`read` returns `ERROR` unless `fd` is `STDIN_FILENO` and `write` returns
`ERROR` unless `fd` is `STDOUT_FILENO` (the buffer being valid).  Each of
them returns, in the state it was called in but for the lock having been
taken and released: no call into the file system was made and the file
table is the same. -/
theorem unknown_descriptor (cfg : Config) (env : Env) (s : State) (fd : Int)
    (buffer size : Nat) (hfd : ∀ pf ∈ s.file_list, pf.fd ≠ fd)
    (hb : buffer < 4294967296)
    (hbuf : ∀ i, i < size → valid_ptr cfg s (wrap32 (buffer + i))) :
    filesize cfg env fd s =
      Outcome.ret cfg.ERROR
        { s with lock_held := false,
                 trace := s.trace ++ [Event.lock_acquire, Event.lock_release] } ∧
    tell cfg env fd s =
      Outcome.ret (toU32 cfg.ERROR)
        { s with lock_held := false,
                 trace := s.trace ++ [Event.lock_acquire, Event.lock_release] } ∧
    (fd ≠ cfg.STDIN_FILENO →
      read cfg env fd buffer size s =
        Outcome.ret cfg.ERROR
          { s with lock_held := false,
                   trace := s.trace ++ [Event.lock_acquire, Event.lock_release] }) ∧
    (fd ≠ cfg.STDOUT_FILENO →
      write cfg env fd buffer size s =
        Outcome.ret cfg.ERROR
          { s with lock_held := false,
                   trace := s.trace ++ [Event.lock_acquire, Event.lock_release] }) := by
  have hget : process_get_file_loop fd s.file_list = 0 :=
    process_get_file_loop_absent fd s.file_list hfd
  have hcb : check_buffer_loop cfg size buffer s = Outcome.ret () s := by
    rcases check_buffer_loop_cases cfg s size buffer hb with ⟨_, hr⟩ | ⟨⟨i, hi, hbad⟩, _⟩
    · exact hr
    · exact absurd (hbuf i hi) hbad
  refine ⟨?_, ?_, ?_, ?_⟩
  · simp [filesize, bind_eq, pure_eq, K.bind, K.pure, lock_acquire, lock_release, getState,
      process_get_file, hget]
  · simp [tell, bind_eq, pure_eq, K.bind, K.pure, lock_acquire, lock_release, getState,
      process_get_file, hget]
  · intro hin
    simp [read, bind_eq, pure_eq, K.bind, K.pure, lock_acquire, lock_release, getState,
      process_get_file, hget, check_buffer, hcb, hin]
  · intro hout
    simp [write, bind_eq, pure_eq, K.bind, K.pure, lock_acquire, lock_release, getState,
      process_get_file, hget, check_buffer, hcb, hout]

/-- C16, at descriptor 9 of an empty file table, with a one-byte buffer in
the mapped page. -/
theorem unknown_descriptor_witness :
    (∀ pf ∈ (state0 (fun _ => 0) 0).file_list, pf.fd ≠ 9) ∧
    (134512640 : Nat) < 4294967296 ∧
    (∀ i, i < 1 → valid_ptr stock (state0 (fun _ => 0) 0) (wrap32 (134512640 + i))) ∧
    filesize stock env0 9 (state0 (fun _ => 0) 0) =
      Outcome.ret (-1)
        { state0 (fun _ => 0) 0 with trace := [Event.lock_acquire, Event.lock_release] } ∧
    read stock env0 9 134512640 1 (state0 (fun _ => 0) 0) =
      Outcome.ret (-1)
        { state0 (fun _ => 0) 0 with trace := [Event.lock_acquire, Event.lock_release] } :=
  ⟨by decide, by decide, by decide,
    (unknown_descriptor stock env0 (state0 (fun _ => 0) 0) 9 134512640 1 (by decide)
      (by decide) (by decide)).1,
    (unknown_descriptor stock env0 (state0 (fun _ => 0) 0) 9 134512640 1 (by decide)
      (by decide) (by decide)).2.2.1 (by decide)⟩

/-! ## The child-process registry: lookups -/

theorem get_child_process_loop_ge (pid : Int) : ∀ (l : List child_process) (i j : Nat),
    get_child_process_loop pid l i = some j → i ≤ j := by
  intro l
  induction l with
  | nil => intro i j h; simp [get_child_process_loop] at h
  | cons a l ih =>
    intro i j h
    by_cases h1 : pid = a.pid
    · simp [get_child_process_loop, h1] at h
      omega
    · simp only [get_child_process_loop, if_neg h1] at h
      have := ih (i + 1) j h
      omega

theorem get_child_process_loop_absent (pid : Int) : ∀ (l : List child_process) (i : Nat),
    (∀ r ∈ l, r.pid ≠ pid) → get_child_process_loop pid l i = none := by
  intro l
  induction l with
  | nil => intro _ _; rfl
  | cons a l ih =>
    intro i h
    have h1 : pid ≠ a.pid := fun e => h a (List.mem_cons_self _ _) e.symm
    simp only [get_child_process_loop, if_neg h1]
    exact ih (i + 1) fun q hq => h q (List.mem_cons_of_mem _ hq)

/-- A record appended behind records of other pids is found at the end. -/
theorem get_child_process_loop_append (pid : Int) (r : child_process) (hr : r.pid = pid) :
    ∀ (l : List child_process) (i : Nat), (∀ q ∈ l, q.pid ≠ pid) →
      get_child_process_loop pid (l ++ [r]) i = some (i + l.length) := by
  intro l
  induction l with
  | nil => intro i _; simp [get_child_process_loop, hr]
  | cons a l ih =>
    intro i h
    have h1 : pid ≠ a.pid := fun e => h a (List.mem_cons_self _ _) e.symm
    show (if pid = a.pid then some i else get_child_process_loop pid (l ++ [r]) (i + 1)) = _
    rw [if_neg h1, ih (i + 1) fun q hq => h q (List.mem_cons_of_mem _ hq)]
    congr 1
    simp only [List.length_cons]
    omega

/-- The record `get_child_process` points to is the first of the list with
the pid asked for. -/
theorem get_child_process_loop_find (pid : Int) : ∀ (l : List child_process) (i : Nat),
    ((get_child_process_loop pid l i).bind fun j => l.get? (j - i)) =
      l.find? fun r => decide (pid = r.pid) := by
  intro l
  induction l with
  | nil => intro i; rfl
  | cons a l ih =>
    intro i
    by_cases h1 : pid = a.pid
    · simp [get_child_process_loop, h1]
    · simp only [get_child_process_loop, if_neg h1, List.find?_cons]
      rw [show decide (pid = a.pid) = false from decide_eq_false h1, ← ih (i + 1)]
      cases hj : get_child_process_loop pid l (i + 1) with
      | none => rfl
      | some j =>
        have hge := get_child_process_loop_ge pid l (i + 1) j hj
        simp only [Option.bind]
        rw [show j - i = (j - (i + 1)) + 1 by omega]
        rfl

theorem find_child_eq (pid : Int) (s : State) :
    find_child pid s = s.child_list.find? fun r => decide (pid = r.pid) := by
  have := get_child_process_loop_find pid s.child_list 0
  simpa [find_child, get_child_process] using this

/-- Unlinking a record does not change which record is found for another
pid. -/
theorem find_eraseIdx_other (q : Int) : ∀ (l : List child_process) (i : Nat)
    (r : child_process), l.get? i = some r → q ≠ r.pid →
      ((l.eraseIdx i).find? fun x => decide (q = x.pid)) =
        l.find? fun x => decide (q = x.pid) := by
  intro l
  induction l with
  | nil => intro i r h _; simp at h
  | cons a l ih =>
    intro i r h hq
    cases i with
    | zero =>
      simp at h
      subst h
      simp [List.eraseIdx, List.find?_cons, hq]
    | succ i =>
      simp at h
      simp only [List.eraseIdx, List.find?_cons]
      rw [ih i r (by simpa using h) hq]

/-- Among records of different pids, unlinking one leaves none with its
pid. -/
theorem eraseIdx_no_pid : ∀ (l : List child_process) (i : Nat) (r : child_process),
    List.Pairwise (fun a b : child_process => a.pid ≠ b.pid) l → l.get? i = some r →
      ∀ x ∈ l.eraseIdx i, x.pid ≠ r.pid := by
  intro l
  induction l with
  | nil => intro i r _ h; simp at h
  | cons a l ih =>
    intro i r hp h x hx
    rw [List.pairwise_cons] at hp
    cases i with
    | zero =>
      simp at h
      subst h
      simp only [List.eraseIdx] at hx
      exact fun e => hp.1 x hx e.symm
    | succ i =>
      simp at h
      have hr : r ∈ l := List.getElem?_mem h
      simp only [List.eraseIdx] at hx
      rcases List.mem_cons.mp hx with rfl | hx
      · exact hp.1 r hr
      · exact ih i r hp.2 (by simpa using h) x hx

theorem remove_child_processes_loop_eq : ∀ (l : List child_process),
    remove_child_processes_loop l = ([], l.map Event.free_child_process) := by
  intro l
  induction l with
  | nil => rfl
  | cons a l ih => simp [remove_child_processes_loop, ih]

theorem freed_children_append (a b : List Event) :
    freed_children (a ++ b) = freed_children a ++ freed_children b := by
  induction a with
  | nil => rfl
  | cons e a ih => cases e <;> simp [freed_children, ih]

theorem freed_children_map : ∀ (l : List child_process),
    freed_children (l.map Event.free_child_process) = l := by
  intro l
  induction l with
  | nil => rfl
  | cons a l ih => simp [freed_children, ih]

/-! ## The child-process registry (C17, C18, C19) -/

/-- C17: when no record of the child list has the pid `pid`,
`add_child_process (pid)` returns a pointer to a new record; the child list
is the old one with that one record appended; the record has the pid `pid`,
load state `NOT_LOADED`, `wait` false and `exit` false; and
`get_child_process (pid)` then returns the pointer to it. -/
theorem add_child_contract (cfg : Config) (s : State) (pid : Int)
    (hnew : ∀ r ∈ s.child_list, r.pid ≠ pid) :
    ∃ cp s1, add_child_process cfg pid s = Outcome.ret cp s1 ∧
      s1.child_list = s.child_list ++
        [{ pid := pid, load := cfg.NOT_LOADED, wait := false, exit := false,
           status := none }] ∧
      s1.child_list.length = s.child_list.length + 1 ∧
      get_child_process pid s1 = some cp ∧
      s1.child_list.get? cp =
        some { pid := pid, load := cfg.NOT_LOADED, wait := false, exit := false,
               status := none } ∧
      find_child pid s1 =
        some { pid := pid, load := cfg.NOT_LOADED, wait := false, exit := false,
               status := none } := by
  have hget : get_child_process_loop pid
      (s.child_list ++
        [{ pid := pid, load := cfg.NOT_LOADED, wait := false, exit := false,
           status := none }]) 0 = some s.child_list.length := by
    have := get_child_process_loop_append pid
      { pid := pid, load := cfg.NOT_LOADED, wait := false, exit := false, status := none }
      rfl s.child_list 0 hnew
    simpa using this
  refine ⟨s.child_list.length, _, rfl, rfl, by simp, hget, by simp, ?_⟩
  simp only [find_child, get_child_process, hget]
  simp

/-- C17, at a child list holding a record for pid 4, and the new pid 7. -/
theorem add_child_contract_witness :
    (∀ r ∈ (state_children
        [{ pid := 4, load := 1, wait := false, exit := false, status := none }]).child_list,
      r.pid ≠ 7) ∧
    ∃ cp s1,
      add_child_process stock 7
        (state_children
          [{ pid := 4, load := 1, wait := false, exit := false, status := none }]) =
        Outcome.ret cp s1 ∧
      s1.child_list =
        (state_children
          [{ pid := 4, load := 1, wait := false, exit := false, status := none }]).child_list
        ++ [{ pid := 7, load := stock.NOT_LOADED, wait := false, exit := false,
              status := none }] ∧
      s1.child_list.length =
        (state_children
          [{ pid := 4, load := 1, wait := false, exit := false,
             status := none }]).child_list.length + 1 ∧
      get_child_process 7 s1 = some cp ∧
      s1.child_list.get? cp =
        some { pid := 7, load := stock.NOT_LOADED, wait := false, exit := false,
               status := none } ∧
      find_child 7 s1 =
        some { pid := 7, load := stock.NOT_LOADED, wait := false, exit := false,
               status := none } :=
  ⟨by decide,
    add_child_contract stock
      (state_children [{ pid := 4, load := 1, wait := false, exit := false, status := none }])
      7 (by decide)⟩

/-- C18: on a child list whose records have different pids, for the record
`r` a pointer `cp` points to, `remove_child_process (cp)` returns after
freeing `r`; afterwards `get_child_process (r.pid)` is `NULL`, the list has
one record fewer, and for every other pid `get_child_process` finds the
record it found before. -/
theorem remove_child_contract (s : State) (cp : Nat) (r : child_process)
    (hdist : List.Pairwise (fun a b : child_process => a.pid ≠ b.pid) s.child_list)
    (hr : s.child_list.get? cp = some r) :
    ∃ s1, remove_child_process cp s = Outcome.ret () s1 ∧
      get_child_process r.pid s1 = none ∧
      s1.child_list.length + 1 = s.child_list.length ∧
      (∀ q, q ≠ r.pid → find_child q s1 = find_child q s) ∧
      s1.trace = s.trace ++ [Event.free_child_process r] := by
  have hlt : cp < s.child_list.length := by
    rcases Nat.lt_or_ge cp s.child_list.length with h | h
    · exact h
    · rw [List.get?_eq_none.mpr h] at hr
      exact absurd hr (by simp)
  refine ⟨{ s with child_list := s.child_list.eraseIdx cp,
                   trace := s.trace ++ [Event.free_child_process r] }, ?_, ?_, ?_, ?_, rfl⟩
  · simp only [remove_child_process, hr]
  · exact get_child_process_loop_absent r.pid _ 0 (eraseIdx_no_pid s.child_list cp r hdist hr)
  · show (s.child_list.eraseIdx cp).length + 1 = s.child_list.length
    rw [List.length_eraseIdx, if_pos hlt]
    omega
  · intro q hq
    rw [find_child_eq, find_child_eq]
    exact find_eraseIdx_other q s.child_list cp r hr hq

/-- C18, at a child list with records for pids 4 and 7, removing the first. -/
theorem remove_child_contract_witness :
    List.Pairwise (fun a b : child_process => a.pid ≠ b.pid)
      (state_children
        [{ pid := 4, load := 1, wait := false, exit := false, status := none },
         { pid := 7, load := 1, wait := false, exit := false, status := none }]).child_list ∧
    (state_children
        [{ pid := 4, load := 1, wait := false, exit := false, status := none },
         { pid := 7, load := 1, wait := false, exit := false, status := none }]).child_list.get? 0
      = some { pid := 4, load := 1, wait := false, exit := false, status := none } ∧
    ∃ s1,
      remove_child_process 0
        (state_children
          [{ pid := 4, load := 1, wait := false, exit := false, status := none },
           { pid := 7, load := 1, wait := false, exit := false, status := none }]) =
        Outcome.ret () s1 ∧
      get_child_process 4 s1 = none ∧
      s1.child_list.length + 1 = 2 ∧
      (∀ q, q ≠ 4 → find_child q s1 =
        find_child q (state_children
          [{ pid := 4, load := 1, wait := false, exit := false, status := none },
           { pid := 7, load := 1, wait := false, exit := false, status := none }])) ∧
      s1.trace = [Event.free_child_process
        { pid := 4, load := 1, wait := false, exit := false, status := none }] :=
  ⟨by decide, rfl,
    remove_child_contract
      (state_children
        [{ pid := 4, load := 1, wait := false, exit := false, status := none },
         { pid := 7, load := 1, wait := false, exit := false, status := none }])
      0 { pid := 4, load := 1, wait := false, exit := false, status := none }
      (by decide) rfl⟩

/-- C19: `remove_child_processes ()` returns; the child list is empty
afterwards, the calls it made are one `free` for each record of the list, in
list order, so each of the records was freed once, and
`get_child_process (pid)` is `NULL` for every pid. -/
theorem remove_children_contract (s : State) :
    ∃ s1, remove_child_processes s = Outcome.ret () s1 ∧
      s1.child_list = [] ∧
      s1.trace = s.trace ++ s.child_list.map Event.free_child_process ∧
      freed_children s1.trace = freed_children s.trace ++ s.child_list ∧
      (s.child_list.map Event.free_child_process).length = s.child_list.length ∧
      ∀ pid, get_child_process pid s1 = none := by
  refine ⟨{ s with child_list := (remove_child_processes_loop s.child_list).1,
                   trace := s.trace ++ (remove_child_processes_loop s.child_list).2 },
    rfl, ?_, ?_, ?_, by simp, ?_⟩
  · simp [remove_child_processes_loop_eq]
  · simp [remove_child_processes_loop_eq]
  · simp [remove_child_processes_loop_eq, freed_children_append, freed_children_map]
  · intro pid
    simp [get_child_process, remove_child_processes_loop_eq, get_child_process_loop]

/-! ## `exec` (C14) -/

theorem get_child_process_loop_lt (pid : Int) : ∀ (l : List child_process) (i j : Nat),
    get_child_process_loop pid l i = some j → j < i + l.length := by
  intro l
  induction l with
  | nil => intro i j h; simp [get_child_process_loop] at h
  | cons a l ih =>
    intro i j h
    by_cases h1 : pid = a.pid
    · simp [get_child_process_loop, h1] at h
      simp only [List.length_cons]
      omega
    · simp only [get_child_process_loop, if_neg h1] at h
      have := ih (i + 1) j h
      simp only [List.length_cons]
      omega

/-- What `exec` reads from the record after the child wrote it. -/
theorem load_of_observe_load (env : Env) (pid : Int) (cp k : Nat) (s : State)
    (hcp : cp < s.child_list.length) :
    load_of cp (observe_load env pid cp k s) = some (env.child_load pid k) := by
  unfold load_of observe_load
  simp [List.getElem?_modify_eq, List.getElem?_eq_getElem hcp]

theorem observe_load_length (env : Env) (pid : Int) (cp k : Nat) (s : State) :
    (observe_load env pid cp k s).child_list.length = s.child_list.length := by
  simp [observe_load]

/-- The busy wait ends at the first read that does not see `NOT_LOADED`,
when the fuel reaches that far. -/
theorem exec_spin_returns (cfg : Config) (env : Env) (pid : Int) (cp k0 : Nat)
    (hwait : ∀ k, k < k0 → env.child_load pid k = cfg.NOT_LOADED)
    (hleft : env.child_load pid k0 ≠ cfg.NOT_LOADED) :
    ∀ (fuel k : Nat) (s : State), k ≤ k0 → k0 < k + fuel → cp < s.child_list.length →
      ∃ s1, exec_spin cfg env pid cp fuel k s = Outcome.ret (k0 + 1) s1 ∧
        s1.child_list.length = s.child_list.length ∧ s1.trace = s.trace ∧
        s1.file_list = s.file_list ∧ s1.lock_held = s.lock_held ∧ s1.frame = s.frame := by
  intro fuel
  induction fuel with
  | zero => intro k s h1 h2 _; omega
  | succ fuel ih =>
    intro k s h1 h2 hcp
    have hl := load_of_observe_load env pid cp k s hcp
    rcases Nat.lt_or_ge k k0 with hlt | hge
    · obtain ⟨s1, hs1, hlen, htr, hfl, hlk, hfr⟩ :=
        ih (k + 1) (observe_load env pid cp k s) (by omega) (by omega)
          (by rw [observe_load_length]; exact hcp)
      refine ⟨s1, ?_, by rw [hlen, observe_load_length], by rw [htr]; rfl, by rw [hfl]; rfl,
        by rw [hlk]; rfl, by rw [hfr]; rfl⟩
      simp only [exec_spin, hl, hwait k hlt, if_true]
      exact hs1
    · have hk : k = k0 := by omega
      subst hk
      refine ⟨observe_load env pid cp k s, ?_, observe_load_length env pid cp k s, rfl, rfl,
        rfl, rfl⟩
      simp only [exec_spin, hl]
      rw [if_neg (fun e => hleft (Option.some.inj e))]

/-- C14: when `cmd_line` passes `check_ptr`, process creation returns `pid`
having registered a record for it in the child list, and the record's load
state is seen to have left `NOT_LOADED` at some read (and keeps the value it
was written, the fuel of the busy wait reaching that far), `exec` does not
terminate the caller: it returns `ERROR` if that state is `LOAD_FAIL` and
`pid` otherwise; so when the load failed and `pid` is not the error value it
does not return `pid`. -/
theorem exec_contract (cfg : Config) (env : Env) (s : State) (cmd_line : Nat) (pid : Int)
    (l : List child_process) (cp k0 : Nat)
    (hptr : valid_ptr cfg s cmd_line)
    (hpe : env.process_execute s.trace s.child_list (s.pagedir cmd_line) = (pid, l))
    (hreg : get_child_process_loop pid l 0 = some cp)
    (hwait : ∀ k, k < k0 → env.child_load pid k = cfg.NOT_LOADED)
    (hleft : env.child_load pid k0 ≠ cfg.NOT_LOADED)
    (hstable : env.child_load pid (k0 + 1) = env.child_load pid k0)
    (hfuel : k0 < env.spin_fuel) :
    ∃ s1, exec cfg env cmd_line s =
        Outcome.ret (if env.child_load pid k0 = cfg.LOAD_FAIL then cfg.ERROR else pid) s1 ∧
      s1.trace = s.trace ++ [Event.process_execute (s.pagedir cmd_line)] ∧
      load_of cp s1 = some (env.child_load pid k0) ∧
      (env.child_load pid k0 = cfg.LOAD_FAIL → pid ≠ cfg.ERROR →
        ∀ s2, exec cfg env cmd_line s ≠ Outcome.ret pid s2) := by
  have hc := (check_ptr_ret_iff cfg s cmd_line).mpr hptr
  have hk : s.pagedir cmd_line ≠ 0 := hptr.2.2
  have hcp : cp < l.length := by
    have := get_child_process_loop_lt pid l 0 cp hreg
    omega
  obtain ⟨s1, hspin, hlen, htr, _, _, _⟩ :=
    exec_spin_returns cfg env pid cp k0 hwait hleft env.spin_fuel 0
      { s with child_list := l,
               trace := s.trace ++ [Event.process_execute (s.pagedir cmd_line)] }
      (Nat.zero_le _) (by omega) hcp
  have hcp1 : cp < s1.child_list.length := by rw [hlen]; exact hcp
  have hl := load_of_observe_load env pid cp (k0 + 1) s1 hcp1
  have hrun : exec cfg env cmd_line s =
      Outcome.ret (if env.child_load pid k0 = cfg.LOAD_FAIL then cfg.ERROR else pid)
        (observe_load env pid cp (k0 + 1) s1) := by
    simp only [exec, bind_eq, pure_eq, K.bind, K.pure, getState, hc, hk, if_false, hpe,
      get_child_process, hreg, hspin, hl, hstable]
    by_cases hf : env.child_load pid k0 = cfg.LOAD_FAIL
    · simp [hf]
      rfl
    · simp [hf]
      rfl
  refine ⟨observe_load env pid cp (k0 + 1) s1, hrun, ?_, ?_, ?_⟩
  · show s1.trace = _
    rw [htr]
  · rw [hl, hstable]
  · intro hf hne s2 h
    rw [hrun, if_pos hf] at h
    injection h with h1 _
    exact hne h1.symm

/-- C14, at a child that is seen loading at two reads and then seen to have
failed: `exec` returns `-1`. -/
theorem exec_contract_witness :
    valid_ptr stock (state0 (fun _ => 0) 0) 134512640 ∧
    ∃ s1, exec stock env_spawn_fail 134512640 (state0 (fun _ => 0) 0) =
      Outcome.ret (-1) s1 ∧
      s1.trace = [Event.process_execute 3222274048] ∧
      load_of 0 s1 = some 2 :=
  ⟨by decide,
    (exec_contract stock env_spawn_fail (state0 (fun _ => 0) 0) 134512640 7
      [{ pid := 7, load := 0, wait := false, exit := false, status := none }] 0 2
      (by decide) rfl rfl (by decide) (by decide) rfl (by decide)).imp
      fun _ h => ⟨h.1, h.2.1, h.2.2.1⟩⟩

/-! ## The file-system lock (C20) -/

theorem exit_state_trace (status : Int) (s : State) :
    (exit_state status s).trace = s.trace ++ [Event.printf_exit s.name status] := by
  unfold exit_state; cases s.parent_alive <;> simp

theorem exit_state_lock_held (status : Int) (s : State) :
    (exit_state status s).lock_held = s.lock_held := by
  unfold exit_state; cases s.parent_alive <;> simp

/-- The two ways `check_buffer` can end, for any buffer address. -/
theorem check_buffer_loop_outcome (cfg : Config) (s : State) : ∀ (n p : Nat),
    check_buffer_loop cfg n p s = Outcome.ret () s ∨
    check_buffer_loop cfg n p s = Outcome.exited cfg.ERROR (exit_state cfg.ERROR s) := by
  intro n
  induction n with
  | zero => intro p; left; rfl
  | succ n ih =>
    intro p
    rcases check_ptr_cases cfg s p with ⟨_, h⟩ | ⟨_, h⟩
    · rcases ih (wrap32 (p + 1)) with hr | hr
      · left; simp [check_buffer_loop, K.bind, h, hr]
      · right; simp [check_buffer_loop, K.bind, h, hr]
    · right; simp [check_buffer_loop, K.bind, h]

/-- Events that neither touch the lock nor enter the file system do not
matter to the lock discipline. -/
theorem lock_discipline_neutral (held : Bool) (rest : List Event) : ∀ (evs : List Event),
    (∀ e ∈ evs, e ≠ Event.lock_acquire ∧ e ≠ Event.lock_release ∧ is_fs_primitive e = false) →
      lock_discipline held (evs ++ rest) = lock_discipline held rest := by
  intro evs
  induction evs with
  | nil => intro _; rfl
  | cons e evs ih =>
    intro h
    have he := h e (List.mem_cons_self _ _)
    have ih2 := ih fun x hx => h x (List.mem_cons_of_mem _ hx)
    cases e <;> simp_all [lock_discipline, is_fs_primitive]

/-- With the lock held, calls into the file system are in order. -/
theorem lock_discipline_held (rest : List Event) : ∀ (evs : List Event),
    (∀ e ∈ evs, e ≠ Event.lock_acquire ∧ e ≠ Event.lock_release) →
      lock_discipline true (evs ++ rest) = lock_discipline true rest := by
  intro evs
  induction evs with
  | nil => intro _; rfl
  | cons e evs ih =>
    intro h
    have he := h e (List.mem_cons_self _ _)
    have ih2 := ih fun x hx => h x (List.mem_cons_of_mem _ hx)
    cases e <;> simp_all [lock_discipline, is_fs_primitive]

/-- The calls `process_close_file` makes are `file_close` and `free`. -/
theorem process_close_file_loop_events (cfg : Config) (fd : Int) :
    ∀ (l : List process_file), ∀ e ∈ (process_close_file_loop cfg fd l).2,
      e ≠ Event.lock_acquire ∧ e ≠ Event.lock_release := by
  intro l
  induction l with
  | nil => intro e he; simp [process_close_file_loop] at he
  | cons pf l ih =>
    intro e he
    unfold process_close_file_loop at he
    split_ifs at he
    · simp at he
      rcases he with rfl | rfl <;> simp
    · simp at he
      rcases he with rfl | rfl | he
      · simp
      · simp
      · exact ih e he
    · exact ih e he

/-- The console loop of `read` adds only `input_getc` and byte stores to the
trace and leaves the lock alone, however it ends. -/
theorem read_stdin_loop_neutral (env : Env) : ∀ (n p : Nat) (s : State),
    ∃ evs, (read_stdin_loop env n p s).state.trace = s.trace ++ evs ∧
      (∀ e ∈ evs, e ≠ Event.lock_acquire ∧ e ≠ Event.lock_release ∧
        is_fs_primitive e = false) ∧
      (read_stdin_loop env n p s).state.lock_held = s.lock_held := by
  intro n
  induction n with
  | zero =>
    intro p s
    exact ⟨[], by simp [read_stdin_loop, K.pure, Outcome.state],
      fun e he => absurd he (List.not_mem_nil e), rfl⟩
  | succ n ih =>
    intro p s
    by_cases hp : s.pagedir p = 0
    · refine ⟨[Event.input_getc, Event.store8 p (env.input_getc s.trace % 256)], ?_, ?_, ?_⟩
      · simp [read_stdin_loop, bind_eq, K.bind, getState, emit, store8, hp, Outcome.state]
      · intro e he
        simp at he
        rcases he with rfl | rfl <;> simp [is_fs_primitive]
      · simp [read_stdin_loop, bind_eq, K.bind, getState, emit, store8, hp, Outcome.state]
    · obtain ⟨evs, h1, h2, h3⟩ := ih (wrap32 (p + 1))
        { s with trace := s.trace ++ [Event.input_getc] ++
                   [Event.store8 p (env.input_getc s.trace % 256)],
                 mem := fun x => if x = p then env.input_getc s.trace % 256 else s.mem x }
      refine ⟨[Event.input_getc, Event.store8 p (env.input_getc s.trace % 256)] ++ evs,
        ?_, ?_, ?_⟩
      · simp [read_stdin_loop, bind_eq, K.bind, getState, emit, store8, hp] at h1 ⊢
        rw [h1]
      · intro e he
        rcases List.mem_append.mp he with he | he
        · simp at he
          rcases he with rfl | rfl <;> simp [is_fs_primitive]
        · exact h2 e he
      · simp [read_stdin_loop, bind_eq, K.bind, getState, emit, store8, hp] at h3 ⊢
        rw [h3]

/-- A handler that ends in `exit (ERROR)` before touching the lock keeps the
discipline. -/
theorem keeps_lock_discipline_exit {α : Type} (cfg : Config) (s : State)
    (hfree : s.lock_held = false) :
    keeps_lock_discipline s
      (Outcome.exited cfg.ERROR (exit_state cfg.ERROR s) : Outcome α) :=
  ⟨[Event.printf_exit s.name cfg.ERROR], exit_state_trace cfg.ERROR s, rfl,
    by rw [Outcome.state, exit_state_lock_held, hfree]⟩

/-- C20: entered with the lock free, each of `create`, `remove`, `open`,
`filesize`, `read`, `write`, `seek`, `tell` and `close`, for every argument
and however it ends (return, or termination of the process by a failed
validation), adds to the trace a run of events in which every call into the
file system (`filesys_create`, `filesys_remove`, `filesys_open`,
`file_length`, `file_read`, `file_write`, `file_seek`, `file_tell`,
`file_close`) comes between a `lock_acquire` and the `lock_release` that
follows it, and ends with the lock free. -/
theorem handlers_keep_lock_discipline (cfg : Config) (env : Env) (s : State)
    (hfree : s.lock_held = false) :
    (∀ file initial_size,
      keeps_lock_discipline s (create cfg env file initial_size s)) ∧
    (∀ file, keeps_lock_discipline s (remove cfg env file s)) ∧
    (∀ file, keeps_lock_discipline s (sys_open cfg env file s)) ∧
    (∀ fd, keeps_lock_discipline s (filesize cfg env fd s)) ∧
    (∀ fd buffer size, keeps_lock_discipline s (read cfg env fd buffer size s)) ∧
    (∀ fd buffer size, keeps_lock_discipline s (write cfg env fd buffer size s)) ∧
    (∀ fd position, keeps_lock_discipline s (seek fd position s)) ∧
    (∀ fd, keeps_lock_discipline s (tell cfg env fd s)) ∧
    (∀ fd, keeps_lock_discipline s (close cfg fd s)) := by
  refine ⟨?_, ?_, ?_, ?_, ?_, ?_, ?_, ?_, ?_⟩
  · intro file initial_size
    rcases check_ptr_cases cfg s file with ⟨_, h⟩ | ⟨_, h⟩
    · refine ⟨[Event.lock_acquire, Event.filesys_create file initial_size,
        Event.lock_release], ?_, rfl, ?_⟩ <;>
        simp [create, bind_eq, pure_eq, K.bind, K.pure, lock_acquire, lock_release, getState,
          emit, h, Outcome.state]
    · have : create cfg env file initial_size s =
          Outcome.exited cfg.ERROR (exit_state cfg.ERROR s) := by
        simp [create, bind_eq, K.bind, h]
      rw [this]
      exact keeps_lock_discipline_exit cfg s hfree
  · intro file
    rcases check_ptr_cases cfg s file with ⟨_, h⟩ | ⟨_, h⟩
    · refine ⟨[Event.lock_acquire, Event.filesys_remove file, Event.lock_release],
        ?_, rfl, ?_⟩ <;>
        simp [remove, bind_eq, pure_eq, K.bind, K.pure, lock_acquire, lock_release, getState,
          emit, h, Outcome.state]
    · have : remove cfg env file s = Outcome.exited cfg.ERROR (exit_state cfg.ERROR s) := by
        simp [remove, bind_eq, K.bind, h]
      rw [this]
      exact keeps_lock_discipline_exit cfg s hfree
  · intro file
    rcases check_ptr_cases cfg s file with ⟨_, h⟩ | ⟨_, h⟩
    · refine ⟨[Event.lock_acquire, Event.filesys_open file, Event.lock_release],
        ?_, rfl, ?_⟩ <;>
        (by_cases hf : env.filesys_open (s.trace ++ [Event.lock_acquire]) file = 0 <;>
          simp [sys_open, bind_eq, pure_eq, K.bind, K.pure, lock_acquire, lock_release,
            getState, emit, process_add_file, h, hf, Outcome.state])
    · have : sys_open cfg env file s = Outcome.exited cfg.ERROR (exit_state cfg.ERROR s) := by
        simp [sys_open, bind_eq, K.bind, h]
      rw [this]
      exact keeps_lock_discipline_exit cfg s hfree
  · intro fd
    by_cases hf : process_get_file_loop fd s.file_list = 0
    · refine ⟨[Event.lock_acquire, Event.lock_release], ?_, rfl, ?_⟩ <;>
        simp [filesize, bind_eq, pure_eq, K.bind, K.pure, lock_acquire, lock_release,
          getState, emit, process_get_file, hf, Outcome.state]
    · refine ⟨[Event.lock_acquire,
        Event.file_length (process_get_file_loop fd s.file_list), Event.lock_release],
        ?_, rfl, ?_⟩ <;>
        simp [filesize, bind_eq, pure_eq, K.bind, K.pure, lock_acquire, lock_release,
          getState, emit, process_get_file, hf, Outcome.state]
  · intro fd buffer size
    rcases check_buffer_loop_outcome cfg s size buffer with h | h
    · by_cases hin : fd = cfg.STDIN_FILENO
      · obtain ⟨evs, h1, h2, h3⟩ := read_stdin_loop_neutral env size buffer s
        have hst : (read cfg env fd buffer size s).state =
            (read_stdin_loop env size buffer s).state := by
          simp only [read, bind_eq, pure_eq, K.bind, check_buffer, h, hin, if_true]
          generalize read_stdin_loop env size buffer s = o
          cases o <;> simp [K.pure, Outcome.state]
        refine ⟨evs, by rw [hst, h1], ?_, by rw [hst, h3, hfree]⟩
        have := lock_discipline_neutral false [] evs h2
        simpa [lock_discipline] using this
      · by_cases hf : process_get_file_loop fd s.file_list = 0
        · refine ⟨[Event.lock_acquire, Event.lock_release], ?_, rfl, ?_⟩ <;>
            simp [read, bind_eq, pure_eq, K.bind, K.pure, lock_acquire, lock_release,
              getState, emit, process_get_file, check_buffer, h, hin, hf, Outcome.state]
        · refine ⟨[Event.lock_acquire,
            Event.file_read (process_get_file_loop fd s.file_list) buffer size,
            Event.lock_release], ?_, rfl, ?_⟩ <;>
            simp [read, bind_eq, pure_eq, K.bind, K.pure, lock_acquire, lock_release,
              getState, emit, process_get_file, check_buffer, h, hin, hf, Outcome.state]
    · have : read cfg env fd buffer size s =
          Outcome.exited cfg.ERROR (exit_state cfg.ERROR s) := by
        simp [read, bind_eq, K.bind, check_buffer, h]
      rw [this]
      exact keeps_lock_discipline_exit cfg s hfree
  · intro fd buffer size
    rcases check_buffer_loop_outcome cfg s size buffer with h | h
    · by_cases hout : fd = cfg.STDOUT_FILENO
      · refine ⟨[Event.putbuf buffer size], ?_, rfl, ?_⟩ <;>
          simp [write, bind_eq, pure_eq, K.bind, K.pure, emit, check_buffer, h, hout,
            Outcome.state, hfree]
      · by_cases hf : process_get_file_loop fd s.file_list = 0
        · refine ⟨[Event.lock_acquire, Event.lock_release], ?_, rfl, ?_⟩ <;>
            simp [write, bind_eq, pure_eq, K.bind, K.pure, lock_acquire, lock_release,
              getState, emit, process_get_file, check_buffer, h, hout, hf, Outcome.state]
        · refine ⟨[Event.lock_acquire,
            Event.file_write (process_get_file_loop fd s.file_list) buffer size,
            Event.lock_release], ?_, rfl, ?_⟩ <;>
            simp [write, bind_eq, pure_eq, K.bind, K.pure, lock_acquire, lock_release,
              getState, emit, process_get_file, check_buffer, h, hout, hf, Outcome.state]
    · have : write cfg env fd buffer size s =
          Outcome.exited cfg.ERROR (exit_state cfg.ERROR s) := by
        simp [write, bind_eq, K.bind, check_buffer, h]
      rw [this]
      exact keeps_lock_discipline_exit cfg s hfree
  · intro fd position
    by_cases hf : process_get_file_loop fd s.file_list = 0
    · refine ⟨[Event.lock_acquire, Event.lock_release], ?_, rfl, ?_⟩ <;>
        simp [seek, bind_eq, pure_eq, K.bind, K.pure, lock_acquire, lock_release,
          getState, emit, process_get_file, hf, Outcome.state]
    · refine ⟨[Event.lock_acquire,
        Event.file_seek (process_get_file_loop fd s.file_list) position, Event.lock_release],
        ?_, rfl, ?_⟩ <;>
        simp [seek, bind_eq, pure_eq, K.bind, K.pure, lock_acquire, lock_release,
          getState, emit, process_get_file, hf, Outcome.state]
  · intro fd
    by_cases hf : process_get_file_loop fd s.file_list = 0
    · refine ⟨[Event.lock_acquire, Event.lock_release], ?_, rfl, ?_⟩ <;>
        simp [tell, bind_eq, pure_eq, K.bind, K.pure, lock_acquire, lock_release,
          getState, emit, process_get_file, hf, Outcome.state]
    · refine ⟨[Event.lock_acquire,
        Event.file_tell (process_get_file_loop fd s.file_list), Event.lock_release],
        ?_, rfl, ?_⟩ <;>
        simp [tell, bind_eq, pure_eq, K.bind, K.pure, lock_acquire, lock_release,
          getState, emit, process_get_file, hf, Outcome.state]
  · intro fd
    rw [close_eq]
    refine ⟨[Event.lock_acquire] ++ (process_close_file_loop cfg fd s.file_list).2 ++
      [Event.lock_release], by simp [Outcome.state], ?_, rfl⟩
    show lock_discipline true
      ((process_close_file_loop cfg fd s.file_list).2 ++ [Event.lock_release]) = some false
    rw [lock_discipline_held _ _ (process_close_file_loop_events cfg fd s.file_list)]
    rfl

/-- C20, at a process with descriptor 2 open and a free lock: `tell (2)`
calls `file_tell` between `lock_acquire` and `lock_release`. -/
theorem handlers_keep_lock_discipline_witness :
    (state_files [{ file := 5, fd := 2 }] 3).lock_held = false ∧
    tell stock env0 2 (state_files [{ file := 5, fd := 2 }] 3) =
      Outcome.ret 0
        { state_files [{ file := 5, fd := 2 }] 3 with
          trace := [Event.lock_acquire, Event.file_tell 5, Event.lock_release] } ∧
    lock_discipline false [Event.lock_acquire, Event.file_tell 5, Event.lock_release] =
      some false ∧
    lock_discipline false [Event.file_tell 5] = none ∧
    keeps_lock_discipline (state_files [{ file := 5, fd := 2 }] 3)
      (tell stock env0 2 (state_files [{ file := 5, fd := 2 }] 3)) :=
  ⟨rfl, rfl, rfl, rfl,
    (handlers_keep_lock_discipline stock env0 (state_files [{ file := 5, fd := 2 }] 3)
      rfl).2.2.2.2.2.2.2.1 2⟩

end Syscall
